import Mathlib

/-!
Verification of `pkg/query-service/rules/alerting.go` (SigNoz rule engine):
alert resend policy, operator enumerations, rule-condition validation and
query-name selection, the duration JSON codec, and the rule generator URL
builder.

Modelling conventions:
* Go `time.Time` instants and `time.Duration` spans are integers counting
  nanoseconds; `t.After u` is `t > u`, `t.Before u` is `t < u`, and
  `t.Add d` is `t + d`.
* Go functions returning `error` are modelled as returning `Option` of the
  error payload (`none` = `nil` error), or `Option` of the result with
  `none` as the error, as noted at each definition.
-/

namespace Alerting

/-- Modelled from the spec: `model.AlertState` lives in package
`pkg/query-service/model`, which is not among the sources; §4.3 of the
spec names the states Inactive, Pending, Firing, Resolved.  The code under
verification only ever compares a state against `model.StatePending`. -/
inductive AlertState where
  | inactive
  | pending
  | firing
  | resolved
deriving DecidableEq

/-- The fields of `Alert` (alerting.go lines 43-64) read by `needsSending`.
The label sets, generator URL, receiver list, the `float64` value and the
remaining timestamps do not influence any operation modelled here and are
omitted. -/
structure Alert where
  State : AlertState
  ResolvedAt : Int
  LastSentAt : Int
deriving DecidableEq

/-- `Alert.needsSending` (alerting.go lines 66-77): pending alerts are never
sent; an unresolved-announcement (`ResolvedAt` after `LastSentAt`) is always
sent; otherwise send only when `LastSentAt + resendDelay` is strictly before
`ts`. -/
def Alert.needsSending (a : Alert) (ts : Int) (resendDelay : Int) : Bool :=
  if a.State = AlertState.pending then
    false
  else if a.ResolvedAt > a.LastSentAt then
    true
  else
    decide (a.LastSentAt + resendDelay < ts)

/-- `CompareOp` constants (alerting.go lines 86-95); the Go type is a string
with fixed single-digit codes. -/
def CompareOpNone : String := "0"

def ValueIsAbove : String := "1"

def ValueIsBelow : String := "2"

def ValueIsEq : String := "3"

def ValueIsNotEq : String := "4"

def ValueAboveOrEq : String := "5"

def ValueBelowOrEq : String := "6"

def ValueOutsideBounds : String := "7"

/-- `supportedCompareOps` (alerting.go line 98). -/
def supportedCompareOps : List String :=
  [CompareOpNone, ValueIsAbove, ValueIsBelow, ValueIsEq, ValueIsNotEq,
    ValueAboveOrEq, ValueBelowOrEq, ValueOutsideBounds]

/-- `CompareOp.String` (alerting.go lines 101-121). -/
def compareOpString (co : String) : String :=
  if co = CompareOpNone then "None: Enum value 0"
  else if co = ValueIsAbove then "ValueIsAbove: Enum value 1"
  else if co = ValueIsBelow then "ValueIsBelow: Enum value 2"
  else if co = ValueIsEq then "ValueIsEq: Enum value 3"
  else if co = ValueIsNotEq then "ValueIsNotEq: Enum value 4"
  else if co = ValueAboveOrEq then "ValueAboveOrEq: Enum value 5"
  else if co = ValueBelowOrEq then "ValueBelowOrEq: Enum value 6"
  else if co = ValueOutsideBounds then "ValueOutsideBounds: Enum value 7"
  else "Unknown: Enum value"

/-- The `msg` accumulated by the loop in `CompareOp.Validate` (alerting.go
lines 124-127): every supported op's description followed by ", ". -/
def compareOpsMsg : String :=
  supportedCompareOps.foldl (fun m op => m ++ compareOpString op ++ ", ") ""

/-- `CompareOp.Validate` (alerting.go lines 123-133); `none` models a `nil`
error, `some msg` the `fmt.Errorf` result.  The switch accepts exactly the
seven non-none codes. -/
def compareOpValidate (co : String) : Option String :=
  if co = ValueIsAbove ∨ co = ValueIsBelow ∨ co = ValueIsEq ∨
      co = ValueIsNotEq ∨ co = ValueAboveOrEq ∨ co = ValueBelowOrEq ∨
      co = ValueOutsideBounds then
    none
  else
    some ("invalid compare op: " ++ co ++ " supported ops are " ++ compareOpsMsg)

/-- `MatchType` constants (alerting.go lines 137-144). -/
def MatchTypeNone : String := "0"

def AtleastOnce : String := "1"

def AllTheTimes : String := "2"

def OnAverage : String := "3"

def InTotal : String := "4"

def Last : String := "5"

/-- `supportedMatchTypes` (alerting.go line 147). -/
def supportedMatchTypes : List String :=
  [MatchTypeNone, AtleastOnce, AllTheTimes, OnAverage, InTotal, Last]

/-- `MatchType.String` (alerting.go lines 150-166). -/
def matchTypeString (mt : String) : String :=
  if mt = MatchTypeNone then "None: Enum value 0"
  else if mt = AtleastOnce then "AtleastOnce: Enum value 1"
  else if mt = AllTheTimes then "AllTheTimes: Enum value 2"
  else if mt = OnAverage then "OnAverage: Enum value 3"
  else if mt = InTotal then "InTotal: Enum value 4"
  else if mt = Last then "Last: Enum value 5"
  else "Unknown: Enum value"

/-- The `msg` accumulated by the loop in `MatchType.Validate` (alerting.go
lines 169-172). -/
def matchTypesMsg : String :=
  supportedMatchTypes.foldl (fun m op => m ++ matchTypeString op ++ ", ") ""

/-- `MatchType.Validate` (alerting.go lines 168-178); note that the switch on
line 174 lists `MatchTypeNone` among the accepted cases, so the code accepts
the code "0" as valid. -/
def matchTypeValidate (mt : String) : Option String :=
  if mt = MatchTypeNone ∨ mt = AtleastOnce ∨ mt = AllTheTimes ∨
      mt = OnAverage ∨ mt = InTotal ∨ mt = Last then
    none
  else
    some ("invalid match type: " ++ mt ++ " supported ops are " ++ matchTypesMsg)

/-- Modelled from the spec: `v3.QueryType` lives in package
`pkg/query-service/model/v3`, which is not among the sources.  The code
under verification distinguishes the builder type, the ClickHouse SQL type,
any other concrete type (e.g. PromQL, §3 "query-type tag"), and the unknown
tag returned for a missing query. -/
inductive QueryType where
  | builder
  | clickHouseSQL
  | promQL
  | unknown
deriving DecidableEq

/-- Modelled from the spec: `v3.CompositeQuery` (package model/v3, not among
the sources) is "opaque to this core beyond its query-type tag and named
sub-queries" (§3).  The two sub-query maps are modelled by their key sets
(lists of names; the code only enumerates the keys), and its own `Validate`
method by the error it returns, if any. -/
structure CompositeQuery where
  QueryType : QueryType
  BuilderQueries : List String
  ClickHouseQueries : List String
  ValidateResult : Option String

/-- The nested `CompositeQuery.Validate()` call, modelled by the stored
result. -/
def CompositeQuery.Validate (cq : CompositeQuery) : Option String :=
  cq.ValidateResult

/-- The fields of `RuleCondition` (alerting.go lines 180-193) read by the
modelled methods.  `Target` is a Go `*float64`; only its nil-ness is ever
examined here, so it is modelled as an optional unit. -/
structure RuleCondition where
  CompositeQuery : Option CompositeQuery
  CompareOp : String
  Target : Option Unit
  MatchType : String
  SelectedQuery : String

/-- `RuleCondition.QueryType` (alerting.go lines 267-272). -/
def RuleCondition.queryType (rc : RuleCondition) : QueryType :=
  match rc.CompositeQuery with
  | some cq => cq.QueryType
  | none => QueryType.unknown

/-- The `queryNames` set built by `GetSelectedQueryName` (alerting.go lines
201-213): the keys of the builder-query map when the query type is builder,
the keys of the ClickHouse-query map when it is ClickHouse SQL, empty
otherwise.  `dedup` reflects that Go map keys are unique. -/
def RuleCondition.collectQueryNames (rc : RuleCondition) : List String :=
  match rc.CompositeQuery with
  | none => []
  | some cq =>
    if rc.queryType = QueryType.builder then cq.BuilderQueries.dedup
    else if rc.queryType = QueryType.clickHouseSQL then cq.ClickHouseQueries.dedup
    else []

/-- `RuleCondition.GetSelectedQueryName` (alerting.go lines 195-234) on a
non-nil receiver.  `sort.Strings` followed by `keys[len(keys)-1]` is
modelled by an ascending sort followed by `getLast?`; the `none` result
models the out-of-bounds panic of `keys[len(keys)-1]` on an empty slice. -/
def RuleCondition.GetSelectedQueryName (rc : RuleCondition) : Option String :=
  if rc.SelectedQuery ≠ "" then
    some rc.SelectedQuery
  else if "F1" ∈ rc.collectQueryNames then
    some "F1"
  else
    (List.insertionSort (fun a b => a ≤ b) rc.collectQueryNames).getLast?

/-- The distinct errors observable from `RuleCondition.Validate`
(alerting.go lines 236-264).  `ErrCompositeQueryRequired`,
`ErrTargetRequired`, `ErrCompareOpRequired` and `ErrMatchTypeRequired` are
sentinel errors declared elsewhere in package rules; the remaining
constructors carry the message of the wrapped validation error. -/
inductive RuleErr where
  | compositeQueryRequired
  | targetRequired
  | compareOpRequired
  | matchTypeRequired
  | compareOpErr (msg : String)
  | matchTypeErr (msg : String)
  | compositeQueryErr (msg : String)
deriving DecidableEq

/-- `RuleCondition.Validate` (alerting.go lines 236-264): composite query
required first; for builder-type queries, target then compare op (presence,
then validity) then match type (presence, then validity); finally the nested
composite query's own validation, for every query type. -/
def RuleCondition.Validate (rc : RuleCondition) : Option RuleErr :=
  match rc.CompositeQuery with
  | none => some RuleErr.compositeQueryRequired
  | some cq =>
    let builderCheck : Option RuleErr :=
      if rc.queryType = QueryType.builder then
        if rc.Target = none then some RuleErr.targetRequired
        else if rc.CompareOp = "" then some RuleErr.compareOpRequired
        else
          match compareOpValidate rc.CompareOp with
          | some msg => some (RuleErr.compareOpErr msg)
          | none =>
            if rc.MatchType = "" then some RuleErr.matchTypeRequired
            else
              match matchTypeValidate rc.MatchType with
              | some msg => some (RuleErr.matchTypeErr msg)
              | none => none
      else none
    match builderCheck with
    | some e => some e
    | none =>
      match cq.Validate with
      | some msg => some (RuleErr.compositeQueryErr msg)
      | none => none

/-! ### Go `net/url` fragment

`prepareRuleGeneratorURL` (alerting.go lines 315-343) reads only
`parsedSource.Scheme`, `parsedSource.Hostname()` and `parsedSource.Port()`
from the result of `url.Parse`.  The definitions below translate the part
of Go's `net/url.Parse` that produces these fields: the control-byte check,
fragment and query splitting, `getScheme`, the opaque/rootless case, the
"first path segment in URL cannot contain colon" check, authority
extraction with userinfo validation, and host/port validation.  Percent
unescaping of the host and userinfo is not modelled (hosts are kept
verbatim), so the model diverges from Go only on URLs containing `%`;
path/fragment escape errors are likewise not modelled.  Strings are
processed as character lists; every byte-level comparison performed by
the Go code compares against ASCII, where the byte and character views of
UTF-8 text coincide. -/

/-- `stringContainsCTLByte`: an ASCII control byte (below 0x20, or 0x7f).
A multi-byte UTF-8 character contains no such byte and no such char. -/
def isCTLChar (c : Char) : Bool :=
  decide (c.toNat < 0x20) || decide (c.toNat = 0x7f)

/-- `strings.Cut` / `split(s, sep, true)`: the part before the first
occurrence of `sep` and the part after it (the whole string and `[]` when
`sep` does not occur). -/
def cutAtChar (s : List Char) (sep : Char) : List Char × List Char :=
  (s.takeWhile (fun x => decide (x ≠ sep)),
    (s.dropWhile (fun x => decide (x ≠ sep))).drop 1)

/-- `beginsWith s pre` is Go's `strings.HasPrefix s pre`. -/
def beginsWith (s pre : List Char) : Bool :=
  decide (s.take pre.length = pre)

/-- Scheme characters accepted by `getScheme` after the first position. -/
def isSchemeAlpha (c : Char) : Bool :=
  (decide ('a' ≤ c) && decide (c ≤ 'z')) || (decide ('A' ≤ c) && decide (c ≤ 'Z'))

/-- Digits and `+ - .`, accepted by `getScheme` except at position 0. -/
def isSchemeExtra (c : Char) : Bool :=
  (decide ('0' ≤ c) && decide (c ≤ '9')) || decide (c = '+') || decide (c = '-') ||
    decide (c = '.')

/-- The scan loop of `net/url.getScheme`; `none` models the
"missing protocol scheme" error (a `:` at position 0). -/
def getSchemeAux (orig : List Char) : Nat → List Char → List Char →
    Option (List Char × List Char)
  | _, _, [] => some ([], orig)
  | i, acc, c :: cs =>
    if isSchemeAlpha c then getSchemeAux orig (i + 1) (acc ++ [c]) cs
    else if isSchemeExtra c then
      if i = 0 then some ([], orig) else getSchemeAux orig (i + 1) (acc ++ [c]) cs
    else if c = ':' then
      if i = 0 then none else some (acc, cs)
    else some ([], orig)

/-- `net/url.getScheme`: splits `"http://x"` into `("http", "//x")`; a
string with no scheme is returned whole with an empty scheme. -/
def getScheme (s : List Char) : Option (List Char × List Char) :=
  getSchemeAux s 0 [] s

/-- `net/url.validOptionalPort`: empty, or `:` followed by digits only. -/
def validOptionalPort (port : List Char) : Bool :=
  match port with
  | [] => true
  | c :: rest =>
    decide (c = ':') && rest.all (fun b => decide ('0' ≤ b) && decide (b ≤ '9'))

/-- Characters admitted by `net/url.validUserinfo`. -/
def isUserinfoChar (c : Char) : Bool :=
  isSchemeAlpha c || (decide ('0' ≤ c) && decide (c ≤ '9')) ||
    [ '-', '.', '_', ':', '~', '!', '$', '&', '\'', '(', ')', '*', '+', ',',
      ';', '=', '%', '@'].contains c

/-- Index of the last occurrence of `sep` in `s`, if any
(Go `strings.LastIndex` for a single-character pattern). -/
def lastIndexOfChar (s : List Char) (sep : Char) : Option Nat :=
  ((List.range s.length).filter (fun i => decide ((s.drop i).take 1 = [sep]))).getLast?

/-- `net/url.parseHost` without percent-unescaping: brackets require a
closing `]` followed by a valid optional port; otherwise anything after the
last `:` must be a valid port. -/
def parseHost (host : List Char) : Option (List Char) :=
  if beginsWith host ['['] then
    match lastIndexOfChar host ']' with
    | none => none
    | some i => if validOptionalPort (host.drop (i + 1)) then some host else none
  else
    match lastIndexOfChar host ':' with
    | none => some host
    | some i => if validOptionalPort (host.drop i) then some host else none

/-- `net/url.parseAuthority` without percent-unescaping: the host is the
part after the last `@`; a userinfo part must pass `validUserinfo`. -/
def parseAuthority (authority : List Char) : Option (List Char) :=
  match lastIndexOfChar authority '@' with
  | none => parseHost authority
  | some i =>
    match parseHost (authority.drop (i + 1)) with
    | none => none
    | some host =>
      if (authority.take i).all isUserinfoChar then some host else none

/-- The two `url.URL` fields consumed by `prepareRuleGeneratorURL`. -/
structure GoURL where
  Scheme : String
  Host : String
deriving DecidableEq

/-- `net/url.Parse` restricted to the `Scheme` and `Host` fields, as
described in the section header; `none` models a parse error. -/
def urlParse (rawURL : String) : Option GoURL :=
  let s0 := rawURL.toList
  let u := (cutAtChar s0 '#').1
  if u.any isCTLChar then none
  else if u = ['*'] then some { Scheme := "", Host := "" }
  else
    match getScheme u with
    | none => none
    | some (schemeRaw, rest0) =>
      let scheme := String.mk (schemeRaw.map Char.toLower)
      let rest1 :=
        if rest0.getLast? = some '?' ∧ ¬ '?' ∈ rest0.dropLast then
          rest0.dropLast
        else (cutAtChar rest0 '?').1
      if ¬ beginsWith rest1 ['/'] ∧ schemeRaw ≠ [] then
        -- rootless path after a scheme: an opaque URL with an empty host
        some { Scheme := scheme, Host := "" }
      else if ¬ beginsWith rest1 ['/'] ∧ schemeRaw = [] ∧
          ':' ∈ (cutAtChar rest1 '/').1 then
        none
      else if (schemeRaw ≠ [] ∨ ¬ beginsWith rest1 ['/', '/', '/']) ∧
          beginsWith rest1 ['/', '/'] then
        let afterSlashes := rest1.drop 2
        let authority := (afterSlashes.takeWhile (fun x => decide (x ≠ '/')))
        match parseAuthority authority with
        | none => none
        | some host => some { Scheme := scheme, Host := String.mk host }
      else some { Scheme := scheme, Host := "" }

/-- `net/url.splitHostPort`: strip a valid numeric port after the last
colon, then strip enclosing brackets. -/
def splitHostPort (hostPort : List Char) : List Char × List Char :=
  let (host, port) :=
    match lastIndexOfChar hostPort ':' with
    | some colon =>
      if validOptionalPort (hostPort.drop colon) then
        (hostPort.take colon, hostPort.drop (colon + 1))
      else (hostPort, [])
    | none => (hostPort, [])
  if beginsWith host ['['] ∧ host.getLast? = some ']' then
    ((host.drop 1).dropLast, port)
  else (host, port)

/-- `url.URL.Hostname()`. -/
def urlHostname (host : String) : String :=
  String.mk (splitHostPort host.toList).1

/-- `url.URL.Port()`. -/
def urlPort (host : String) : String :=
  String.mk (splitHostPort host.toList).2

/-- Index just past which the last occurrence of `pat` starts in `s`
(Go `strings.LastIndex s pat`), `none` when `pat` does not occur. -/
def lastIndexOfSub (s pat : List Char) : Option Nat :=
  ((List.range (s.length + 1)).filter
    (fun i => decide ((s.drop i).take pat.length = pat))).getLast?

/-- `prepareRuleGeneratorURL` (alerting.go lines 315-343): empty source is
returned as is; a parse failure yields `""`; a source containing `"new"`
keeps everything before the last occurrence and appends
`edit?ruleId=<ruleId>`; otherwise the URL is rebuilt from scheme, hostname
and optional port. -/
def prepareRuleGeneratorURL (ruleId source : String) : String :=
  if source = "" then source
  else
    match urlParse source with
    | none => ""
    | some parsedSource =>
      match lastIndexOfSub source.toList ['n', 'e', 'w'] with
      | some hasNew =>
        String.mk (source.toList.take hasNew) ++ "edit?ruleId=" ++ ruleId
      | none =>
        if urlPort parsedSource.Host ≠ "" then
          parsedSource.Scheme ++ "://" ++ urlHostname parsedSource.Host ++ ":" ++
            urlPort parsedSource.Host ++ "/alerts/edit?ruleId=" ++ ruleId
        else
          parsedSource.Scheme ++ "://" ++ urlHostname parsedSource.Host ++
            "/alerts/edit?ruleId=" ++ ruleId

/-! ### Go `time.Duration` formatting and parsing

`Duration.MarshalJSON` / `Duration.UnmarshalJSON` (alerting.go lines
285-309) delegate to `time.Duration.String` and `time.ParseDuration`.
Both are translated below on character lists; durations are integer
nanosecond counts.  One deliberate deviation: Go computes the fractional
contribution in `ParseDuration` as `uint64(float64(f) * (float64(unit) /
scale))` in `float64`; the model uses the exact integer `f * unit / scale`.
The two agree whenever `f` and the intermediate products stay below 2^53
and `scale` divides `f * unit` — in particular on every string produced by
`time.Duration.String` (at most 9 fractional digits against a unit of at
least the same scale) and on every string appearing in the theorems
below. -/

/-- Decimal digit to character, `byte(v%10) + '0'` in Go. -/
def digitChar (d : Nat) : Char :=
  match d with
  | 0 => '0'
  | 1 => '1'
  | 2 => '2'
  | 3 => '3'
  | 4 => '4'
  | 5 => '5'
  | 6 => '6'
  | 7 => '7'
  | 8 => '8'
  | 9 => '9'
  | _ => '*'

/-- Decimal digit characters, `'0' <= c && c <= '9'` in Go. -/
def isDigitChar (c : Char) : Bool :=
  decide ('0' ≤ c) && decide (c ≤ '9')

/-- Numeric value of a digit character, `c - '0'` in Go. -/
def charDigit (c : Char) : Nat :=
  c.toNat - '0'.toNat

/-- Decimal value of a digit string continued from the accumulator `x`
(the fold performed by `leadingInt`); used to state the format/parse
inversion lemmas. -/
def digitsValFrom (x : Nat) (l : List Char) : Nat :=
  l.foldl (fun a c => a * 10 + charDigit c) x

/-- Decimal value of a digit string. -/
def digitsVal (l : List Char) : Nat :=
  digitsValFrom 0 l

/-- All characters of `l` are decimal digits. -/
def allDigits (l : List Char) : Prop :=
  ∀ c ∈ l, isDigitChar c = true

/-- Shape of a formatted fractional part at precision `prec` with value
`val`: empty for a zero fraction, else a dot followed by digits whose value
scaled to `prec` places is `val`; used to state the round-trip lemmas. -/
def FracRep (fr1 : List Char) (prec val : Nat) : Prop :=
  (fr1 = [] ∧ val = 0) ∨
  (∃ L, fr1 = '.' :: L ∧ allDigits L ∧ L ≠ [] ∧ L.length ≤ prec ∧
    digitsVal L * 10 ^ (prec - L.length) = val ∧ digitsVal L ≠ 0)

/-- The `for v > 0` loop of `time.fmtInt`, writing least-significant digits
rightmost; the fuel mirrors the 32-byte buffer and is never exhausted for
values below 10^32. -/
def fmtIntAux : Nat → Nat → List Char
  | 0, _ => []
  | fuel + 1, v =>
    if v = 0 then [] else fmtIntAux fuel (v / 10) ++ [digitChar (v % 10)]

/-- `time.fmtInt`: decimal representation, `"0"` for zero. -/
def fmtInt (v : Nat) : List Char :=
  if v = 0 then ['0'] else fmtIntAux 32 v

/-- The loop of `time.fmtFrac`: examines `prec` least-significant digits of
`v`, printing a digit once a nonzero digit has been seen (scanning from the
least significant end), and returns the printed characters together with
the remaining value and the printed flag. -/
def fmtFracAux : Nat → Nat → Bool → List Char × Nat × Bool
  | 0, v, printed => ([], v, printed)
  | prec + 1, v, printed =>
    let digit := v % 10
    let printed1 := printed || decide (digit ≠ 0)
    let here : List Char := if printed1 then [digitChar digit] else []
    let r := fmtFracAux prec (v / 10) printed1
    (r.1 ++ here, r.2.1, r.2.2)

/-- `time.fmtFrac`: the fraction text (with leading `'.'`, trailing zeros
omitted, empty when the fraction is zero) and `v / 10^prec`. -/
def fmtFrac (v : Nat) (prec : Nat) : List Char × Nat :=
  let r := fmtFracAux prec v false
  ((if r.2.2 then ['.'] ++ r.1 else r.1), r.2.1)

/-- The unsigned part of `time.Duration.format`, applied to `|d|`:
sub-second durations use ns/µs/ms with up to the matching precision of
fractional digits; others use `h`/`m`/`s` parts, minutes and hours omitted
when zero. -/
def goDurationBody (u : Nat) : List Char :=
  if u < 1000000000 then
    if u = 0 then ['0', 's']
    else if u < 1000 then
      fmtInt (fmtFrac u 0).2 ++ (fmtFrac u 0).1 ++ ['n', 's']
    else if u < 1000000 then
      fmtInt (fmtFrac u 3).2 ++ (fmtFrac u 3).1 ++ ['µ', 's']
    else
      fmtInt (fmtFrac u 6).2 ++ (fmtFrac u 6).1 ++ ['m', 's']
  else
    let usec := (fmtFrac u 9).2
    let secPart := fmtInt (usec % 60) ++ (fmtFrac u 9).1 ++ ['s']
    let mins := usec / 60
    if mins = 0 then secPart
    else
      let minPart := fmtInt (mins % 60) ++ ['m'] ++ secPart
      let hrs := mins / 60
      if hrs = 0 then minPart
      else fmtInt hrs ++ ['h'] ++ minPart

/-- `time.Duration.format` (via `Duration.String`): the unsigned body with
a leading minus sign for negative durations. -/
def goDurationFormat (d : Int) : List Char :=
  if d < 0 then ['-'] ++ goDurationBody d.natAbs else goDurationBody d.natAbs

/-- `time.Duration.String`. -/
def goDurationString (d : Int) : String :=
  String.mk (goDurationFormat d)

/-- `time.leadingInt` with its overflow guards; `none` is `errLeadingInt`. -/
def leadingIntAux : Nat → List Char → Option (Nat × List Char)
  | x, [] => some (x, [])
  | x, c :: cs =>
    if isDigitChar c then
      if x > 2 ^ 63 / 10 then none
      else
        let x1 := x * 10 + (c.toNat - '0'.toNat)
        if x1 > 2 ^ 63 then none else leadingIntAux x1 cs
    else some (x, c :: cs)

/-- `time.leadingFraction`: consumes digits, saturating silently once the
value would overflow; the scale (a power of ten) counts the digits that
were actually accumulated. -/
def leadingFractionAux : Nat → Nat → Bool → List Char → Nat × Nat × List Char
  | x, scale, _, [] => (x, scale, [])
  | x, scale, overflow, c :: cs =>
    if ¬ isDigitChar c = true then (x, scale, c :: cs)
    else if overflow then leadingFractionAux x scale true cs
    else if x > (2 ^ 63 - 1) / 10 then leadingFractionAux x scale true cs
    else
      let y := x * 10 + (c.toNat - '0'.toNat)
      if y > 2 ^ 63 then leadingFractionAux x scale true cs
      else leadingFractionAux y (scale * 10) false cs

/-- `time.leadingFraction` entry point. -/
def leadingFraction (s : List Char) : Nat × Nat × List Char :=
  leadingFractionAux 0 1 false s

/-- The `(\.[0-9]*)?` step of one `ParseDuration` loop iteration: on a
leading `'.'` the following digits become the fraction (value, scale,
remainder); otherwise nothing is consumed.  The quadruple is
`(dot-seen, f, scale, remaining)`. -/
def parseFracPart (s1 : List Char) : Bool × Nat × Nat × List Char :=
  match s1 with
  | '.' :: s1tail =>
    ((true : Bool), (leadingFraction s1tail).1, (leadingFraction s1tail).2.1,
      (leadingFraction s1tail).2.2)
  | _ => ((false : Bool), 0, 1, s1)

/-- Characters ending a unit name in `ParseDuration` (`c == '.' ||
'0' <= c && c <= '9'`). -/
def isUnitStop (ch : Char) : Bool :=
  decide (ch = '.') || isDigitChar ch

/-- The unit-consuming scan of `ParseDuration`: the unit name is the
longest run of non-stop characters, the remainder follows it. -/
def scanUnit (s2 : List Char) : List Char × List Char :=
  (s2.takeWhile (fun ch => ! isUnitStop ch), s2.dropWhile (fun ch => ! isUnitStop ch))

/-- `time.unitMap`: nanosecond multiplier of each accepted unit name. -/
def unitMapLookup (u : List Char) : Option Nat :=
  if u = ['n', 's'] then some 1
  else if u = ['u', 's'] then some 1000
  else if u = ['µ', 's'] then some 1000
  else if u = ['μ', 's'] then some 1000
  else if u = ['m', 's'] then some 1000000
  else if u = ['s'] then some 1000000000
  else if u = ['m'] then some 60000000000
  else if u = ['h'] then some 3600000000000
  else none

/-- One pass of the `for s != ""` loop of `time.ParseDuration`: leading
integer, optional fraction, unit name, with every overflow guard of the Go
code; the accumulator `d` carries the nanoseconds parsed so far.  The fuel
only bounds the number of loop iterations; each iteration consumes at least
one character, so `s.length` iterations always suffice. -/
def parseLoop : Nat → List Char → Nat → Option Nat
  | _, [], d => some d
  | 0, _ :: _, _ => none
  | fuel + 1, c :: cs, d =>
    if ¬ (c = '.' ∨ isDigitChar c = true) then none
    else
      match leadingIntAux 0 (c :: cs) with
      | none => none
      | some (v, s1) =>
        let fp := parseFracPart s1
        let pre : Prop := s1.length ≠ (c :: cs).length
        let post : Prop := fp.1 = true ∧ fp.2.2.2.length ≠ s1.length - 1
        if ¬ pre ∧ ¬ post then none
        else if (scanUnit fp.2.2.2).1 = [] then none
        else
          match unitMapLookup (scanUnit fp.2.2.2).1 with
          | none => none
          | some unit =>
            if v > 2 ^ 63 / unit then none
            else
              let v2 := if fp.2.1 > 0 then v * unit + fp.2.1 * unit / fp.2.2.1
                        else v * unit
              if fp.2.1 > 0 ∧ v2 > 2 ^ 63 then none
              else if d + v2 > 2 ^ 63 then none
              else parseLoop fuel (scanUnit fp.2.2.2).2 (d + v2)

/-- `time.ParseDuration`: optional sign, the `"0"` special case, then the
component loop; the final overflow check rejects an unsigned total above
2^63 - 1. -/
def goParseDuration (str : String) : Option Int :=
  let orig := str.toList
  let signSplit : Bool × List Char :=
    match orig with
    | [] => (false, [])
    | c :: cs =>
      if c = '-' then (true, cs)
      else if c = '+' then (false, cs)
      else (false, orig)
  let neg := signSplit.1
  let s := signSplit.2
  if s = ['0'] then some 0
  else if s = [] then none
  else
    match parseLoop s.length s 0 with
    | none => none
    | some d =>
      if neg then some (-(d : Int))
      else if d > 2 ^ 63 - 1 then none
      else some (d : Int)

/-- The JSON values distinguished by `Duration.UnmarshalJSON`'s type switch
on the result of `json.Unmarshal` into `interface{}`: numbers, strings, and
everything else (`null`, booleans, arrays, objects).  Numeric values are
kept as exact integers; the only numeric input considered by the theorems,
90000000000, is exactly representable in Go's `float64`. -/
inductive JSONValue where
  | num (n : Int)
  | str (s : String)
  | other
deriving DecidableEq

/-- `Duration.MarshalJSON` (alerting.go lines 285-287): `json.Marshal` of
`time.Duration(d).String()`, i.e. a JSON string holding the formatted
duration. -/
def durationMarshalJSON (d : Int) : JSONValue :=
  JSONValue.str (goDurationString d)

/-- `Duration.UnmarshalJSON` (alerting.go lines 289-309) on the decoded
JSON value: a number is taken as nanoseconds, a string goes through
`time.ParseDuration`, anything else is the "invalid duration" error
(`none`). -/
def durationUnmarshalJSON (v : JSONValue) : Option Int :=
  match v with
  | JSONValue.num n => some n
  | JSONValue.str s => goParseDuration s
  | JSONValue.other => none

/-! ## Theorems -/

/-- Helper: the last element of a `≤`-sorted nonempty list of strings is a
maximum of the list. -/
theorem sorted_getLast?_isMax (l : List String)
    (hl : l.Sorted (fun a b => a ≤ b)) (hne : l ≠ []) :
    ∃ m, l.getLast? = some m ∧ m ∈ l ∧ ∀ x ∈ l, x ≤ m := by
  induction l with
  | nil => exact absurd rfl hne
  | cons a t ih =>
    cases t with
    | nil =>
      exact ⟨a, rfl, by simp, by simp⟩
    | cons b t' =>
      have hpair := List.sorted_cons.mp hl
      obtain ⟨m, hgl, hmem, hmax⟩ := ih hpair.2 (by simp)
      refine ⟨m, ?_, List.mem_cons_of_mem _ hmem, ?_⟩
      · rw [List.getLast?_cons_cons]
        exact hgl
      · intro x hx
        rcases List.mem_cons.mp hx with hx | hx
        · exact hx ▸ le_trans (hpair.1 m hmem) (le_refl m)
        · exact hmax x hx

/-- C1: `needsSending` returns false for pending alerts regardless of
timestamps; otherwise a resolution newer than the last send always
returns true; otherwise it returns true exactly when
`LastSentAt + resendDelay` is strictly before `now`. -/
theorem needsSending_policy (a : Alert) (ts resendDelay : Int) :
    (a.State = AlertState.pending → a.needsSending ts resendDelay = false) ∧
    (a.State ≠ AlertState.pending → a.ResolvedAt > a.LastSentAt →
      a.needsSending ts resendDelay = true) ∧
    (a.State ≠ AlertState.pending → ¬ a.ResolvedAt > a.LastSentAt →
      (a.needsSending ts resendDelay = true ↔ a.LastSentAt + resendDelay < ts)) := by
  refine ⟨fun h => ?_, fun h1 h2 => ?_, fun h1 h2 => ?_⟩
  · simp [Alert.needsSending, h]
  · simp [Alert.needsSending, h1, h2]
  · simp [Alert.needsSending, h1, h2]

/-- Witness for C1: each clause of `needsSending_policy` at concrete
alerts. -/
theorem needsSending_policy_witness :
    Alert.needsSending ⟨AlertState.pending, 10, 0⟩ 100 1 = false ∧
    Alert.needsSending ⟨AlertState.firing, 10, 0⟩ 0 100 = true ∧
    (Alert.needsSending ⟨AlertState.firing, 0, 0⟩ 10 5 = true ↔ (0 : Int) + 5 < 10) :=
  ⟨(needsSending_policy ⟨AlertState.pending, 10, 0⟩ 100 1).1 rfl,
    (needsSending_policy ⟨AlertState.firing, 10, 0⟩ 0 100).2.1 (by decide) (by decide),
    (needsSending_policy ⟨AlertState.firing, 0, 0⟩ 10 5).2.2 (by decide) (by decide)⟩

/-- C2, counterexample: a firing alert with `ResolvedAt ≤ LastSentAt` and
`now = LastSentAt + resendDelay` (so `now ≥ LastSentAt + resendDelay`) is
NOT sent — the code requires `LastSentAt + resendDelay` strictly before
`now`, so the claimed behaviour at exact equality fails. -/
theorem needsSending_boundary_cex :
    ¬ ((0 : Int) > 0) ∧ (5 : Int) ≥ 0 + 5 ∧
      Alert.needsSending ⟨AlertState.firing, 0, 0⟩ 5 5 = false := by
  decide

/-- C2 as amended: for a firing alert with `ResolvedAt` not after
`LastSentAt`, `needsSending` returns true whenever `now` is strictly after
`LastSentAt + resendDelay`, and returns false at exact equality
`now = LastSentAt + resendDelay`. -/
theorem needsSending_firing_strict (a : Alert) (ts d : Int)
    (hs : a.State = AlertState.firing) (hr : ¬ a.ResolvedAt > a.LastSentAt) :
    (a.LastSentAt + d < ts → a.needsSending ts d = true) ∧
    (ts = a.LastSentAt + d → a.needsSending ts d = false) := by
  constructor
  · intro h
    simp [Alert.needsSending, hs, hr, h]
  · intro h
    subst h
    simp [Alert.needsSending, hs, hr]

/-- Witness for C2's amended theorem at concrete alerts. -/
theorem needsSending_firing_strict_witness :
    Alert.needsSending ⟨AlertState.firing, 0, 0⟩ 10 5 = true ∧
    Alert.needsSending ⟨AlertState.firing, 0, 0⟩ 5 5 = false :=
  ⟨(needsSending_firing_strict ⟨AlertState.firing, 0, 0⟩ 10 5 rfl (by decide)).1 (by decide),
    (needsSending_firing_strict ⟨AlertState.firing, 0, 0⟩ 5 5 rfl (by decide)).2 rfl⟩

/-- C3, counterexample: `MatchType.Validate` ACCEPTS `MatchTypeNone`
(code `"0"`) — the switch on alerting.go line 174 lists `MatchTypeNone`
among the valid cases, so no error is returned, contradicting the claim
that `"0"` is rejected. -/
theorem matchTypeValidate_none_cex : matchTypeValidate MatchTypeNone = none := by
  decide

/-- C3 as amended: `MatchType.Validate` succeeds exactly on the six members
`"0"`–`"5"` (including `MatchTypeNone`); every other string produces an
error whose text enumerates all supported values with their
descriptions. -/
theorem matchTypeValidate_members (mt : String) :
    (matchTypeValidate mt = none ↔ mt ∈ supportedMatchTypes) ∧
    (mt ∉ supportedMatchTypes →
      matchTypeValidate mt = some ("invalid match type: " ++ mt ++
        " supported ops are " ++
        "None: Enum value 0, AtleastOnce: Enum value 1, AllTheTimes: Enum value 2, OnAverage: Enum value 3, InTotal: Enum value 4, Last: Enum value 5, ")) := by
  have hmem : mt ∈ supportedMatchTypes ↔
      (mt = MatchTypeNone ∨ mt = AtleastOnce ∨ mt = AllTheTimes ∨
        mt = OnAverage ∨ mt = InTotal ∨ mt = Last) := by
    simp [supportedMatchTypes]
  have hmsg : matchTypesMsg =
      "None: Enum value 0, AtleastOnce: Enum value 1, AllTheTimes: Enum value 2, OnAverage: Enum value 3, InTotal: Enum value 4, Last: Enum value 5, " := by
    rfl
  constructor
  · rw [matchTypeValidate]
    split_ifs with h
    · simp [hmem, h]
    · simp [hmem, h]
  · intro hnot
    rw [matchTypeValidate, if_neg (by rw [← hmem]; exact hnot), hmsg]

/-- Witness for C3's amended theorem at the unsupported code `"junk"`. -/
theorem matchTypeValidate_members_witness :
    matchTypeValidate "junk" = some ("invalid match type: " ++ "junk" ++
      " supported ops are " ++
      "None: Enum value 0, AtleastOnce: Enum value 1, AllTheTimes: Enum value 2, OnAverage: Enum value 3, InTotal: Enum value 4, Last: Enum value 5, ") :=
  (matchTypeValidate_members "junk").2 (by decide)

/-- C6: `CompareOp.Validate` succeeds exactly on the seven non-none codes
`"1"`–`"7"`; every other string — including `CompareOpNone` (`"0"`) —
produces an error whose text lists all supported values with their
descriptions. -/
theorem compareOpValidate_members (co : String) :
    (compareOpValidate co = none ↔
      (co = ValueIsAbove ∨ co = ValueIsBelow ∨ co = ValueIsEq ∨
        co = ValueIsNotEq ∨ co = ValueAboveOrEq ∨ co = ValueBelowOrEq ∨
        co = ValueOutsideBounds)) ∧
    (¬ (co = ValueIsAbove ∨ co = ValueIsBelow ∨ co = ValueIsEq ∨
        co = ValueIsNotEq ∨ co = ValueAboveOrEq ∨ co = ValueBelowOrEq ∨
        co = ValueOutsideBounds) →
      compareOpValidate co = some ("invalid compare op: " ++ co ++
        " supported ops are " ++
        "None: Enum value 0, ValueIsAbove: Enum value 1, ValueIsBelow: Enum value 2, ValueIsEq: Enum value 3, ValueIsNotEq: Enum value 4, ValueAboveOrEq: Enum value 5, ValueBelowOrEq: Enum value 6, ValueOutsideBounds: Enum value 7, ")) := by
  have hmsg : compareOpsMsg =
      "None: Enum value 0, ValueIsAbove: Enum value 1, ValueIsBelow: Enum value 2, ValueIsEq: Enum value 3, ValueIsNotEq: Enum value 4, ValueAboveOrEq: Enum value 5, ValueBelowOrEq: Enum value 6, ValueOutsideBounds: Enum value 7, " := by
    rfl
  constructor
  · rw [compareOpValidate]
    split_ifs with h
    · simp [h]
    · simp [h]
  · intro hnot
    rw [compareOpValidate, if_neg hnot, hmsg]

/-- Witness for C6 at `CompareOpNone` (`"0"`): errors with the enumerating
message. -/
theorem compareOpValidate_members_witness :
    compareOpValidate CompareOpNone = some ("invalid compare op: " ++ "0" ++
      " supported ops are " ++
      "None: Enum value 0, ValueIsAbove: Enum value 1, ValueIsBelow: Enum value 2, ValueIsEq: Enum value 3, ValueIsNotEq: Enum value 4, ValueAboveOrEq: Enum value 5, ValueBelowOrEq: Enum value 6, ValueOutsideBounds: Enum value 7, ") :=
  (compareOpValidate_members CompareOpNone).2 (by decide)

/-- C4: `RuleCondition.Validate` error order — composite query required
first; for builder-type queries target, then compare-op presence and
validity, then match-type presence and validity, in that order; for
non-builder query types only the nested composite query's own validation
is enforced. -/
theorem ruleConditionValidate_order (rc : RuleCondition) :
    (rc.CompositeQuery = none → rc.Validate = some RuleErr.compositeQueryRequired) ∧
    (rc.CompositeQuery ≠ none → rc.queryType = QueryType.builder →
      ((rc.Target = none → rc.Validate = some RuleErr.targetRequired) ∧
        (rc.Target ≠ none → rc.CompareOp = "" →
          rc.Validate = some RuleErr.compareOpRequired) ∧
        (rc.Target ≠ none → rc.CompareOp ≠ "" →
          ∀ msg, compareOpValidate rc.CompareOp = some msg →
            rc.Validate = some (RuleErr.compareOpErr msg)) ∧
        (rc.Target ≠ none → rc.CompareOp ≠ "" →
          compareOpValidate rc.CompareOp = none → rc.MatchType = "" →
            rc.Validate = some RuleErr.matchTypeRequired) ∧
        (rc.Target ≠ none → rc.CompareOp ≠ "" →
          compareOpValidate rc.CompareOp = none → rc.MatchType ≠ "" →
            ∀ msg, matchTypeValidate rc.MatchType = some msg →
              rc.Validate = some (RuleErr.matchTypeErr msg)))) ∧
    (∀ cq, rc.CompositeQuery = some cq → rc.queryType ≠ QueryType.builder →
      ((cq.Validate = none → rc.Validate = none) ∧
        (∀ msg, cq.Validate = some msg →
          rc.Validate = some (RuleErr.compositeQueryErr msg)))) := by
  refine ⟨fun h => ?_, fun h1 h2 => ?_, fun cq hcq hnb => ?_⟩
  · simp [RuleCondition.Validate, h]
  · rcases hcq : rc.CompositeQuery with _ | cq
    · exact absurd hcq h1
    · refine ⟨fun ht => ?_, fun ht hop => ?_, fun ht hop msg hmsg => ?_,
        fun ht hop hopok hmt => ?_, fun ht hop hopok hmt msg hmsg => ?_⟩
      · simp [RuleCondition.Validate, hcq, h2, ht]
      · simp [RuleCondition.Validate, hcq, h2, ht, hop]
      · simp [RuleCondition.Validate, hcq, h2, ht, hop, hmsg]
      · simp [RuleCondition.Validate, hcq, h2, ht, hop, hopok, hmt]
      · simp [RuleCondition.Validate, hcq, h2, ht, hop, hopok, hmt, hmsg]
  · refine ⟨fun hv => ?_, fun msg hmsg => ?_⟩
    · simp [RuleCondition.Validate, hcq, hnb, hv]
    · simp [RuleCondition.Validate, hcq, hnb, hmsg]

/-- Witness for C4: a builder condition missing its target fails with
`TargetRequired`; a non-builder condition with a clean nested query
validates. -/
theorem ruleConditionValidate_order_witness :
    RuleCondition.Validate
      ⟨some ⟨QueryType.builder, [], [], none⟩, "", none, "", ""⟩ =
        some RuleErr.targetRequired ∧
    RuleCondition.Validate
      ⟨some ⟨QueryType.promQL, [], [], none⟩, "", none, "", ""⟩ = none :=
  ⟨((ruleConditionValidate_order
      ⟨some ⟨QueryType.builder, [], [], none⟩, "", none, "", ""⟩).2.1
      (by simp) rfl).1 rfl,
    ((ruleConditionValidate_order
      ⟨some ⟨QueryType.promQL, [], [], none⟩, "", none, "", ""⟩).2.2
      ⟨QueryType.promQL, [], [], none⟩ rfl (by simp [RuleCondition.queryType])).1 rfl⟩

/-- C10: with no explicit selection and a composite query yielding no
sub-query names (nil composite query, or a query type that is neither
builder nor ClickHouse SQL, e.g. PromQL), `GetSelectedQueryName` hits
`keys[len(keys)-1]` on an empty slice — modelled as the `none` result —
instead of returning any string. -/
theorem getSelectedQueryName_empty_panics (rc : RuleCondition)
    (hsel : rc.SelectedQuery = "")
    (h : rc.CompositeQuery = none ∨
      (rc.queryType ≠ QueryType.builder ∧ rc.queryType ≠ QueryType.clickHouseSQL)) :
    rc.GetSelectedQueryName = none := by
  have hnames : rc.collectQueryNames = [] := by
    rcases h with h | ⟨h1, h2⟩
    · simp [RuleCondition.collectQueryNames, h]
    · rcases hcq : rc.CompositeQuery with _ | cq
      · simp [RuleCondition.collectQueryNames, hcq]
      · simp [RuleCondition.collectQueryNames, hcq, h1, h2]
  simp [RuleCondition.GetSelectedQueryName, hsel, hnames]

/-- Witness for C10: a PromQL-type condition with no explicit selection. -/
theorem getSelectedQueryName_empty_panics_witness :
    RuleCondition.GetSelectedQueryName
      ⟨some ⟨QueryType.promQL, ["A"], ["B"], none⟩, "", none, "", ""⟩ = none :=
  getSelectedQueryName_empty_panics
    ⟨some ⟨QueryType.promQL, ["A"], ["B"], none⟩, "", none, "", ""⟩ rfl
    (Or.inr (by simp [RuleCondition.queryType]))

/-- C5: `GetSelectedQueryName` returns the explicit `SelectedQuery` when
non-empty; otherwise `"F1"` when that name is among the collected
sub-query names; otherwise the lexicographically greatest collected
name. -/
theorem getSelectedQueryName_resolution (rc : RuleCondition) :
    (rc.SelectedQuery ≠ "" → rc.GetSelectedQueryName = some rc.SelectedQuery) ∧
    (rc.SelectedQuery = "" → "F1" ∈ rc.collectQueryNames →
      rc.GetSelectedQueryName = some "F1") ∧
    (rc.SelectedQuery = "" → "F1" ∉ rc.collectQueryNames →
      rc.collectQueryNames ≠ [] →
      ∃ m, rc.GetSelectedQueryName = some m ∧ m ∈ rc.collectQueryNames ∧
        ∀ x ∈ rc.collectQueryNames, x ≤ m) := by
  refine ⟨fun h => ?_, fun hsel hF1 => ?_, fun hsel hF1 hne => ?_⟩
  · simp [RuleCondition.GetSelectedQueryName, h]
  · simp [RuleCondition.GetSelectedQueryName, hsel, hF1]
  · have hsorted : List.Sorted (fun a b => a ≤ b)
        (List.insertionSort (fun a b => a ≤ b) rc.collectQueryNames) :=
      List.sorted_insertionSort (fun a b => a ≤ b) rc.collectQueryNames
    have hperm : List.Perm (List.insertionSort (fun a b => a ≤ b) rc.collectQueryNames)
        rc.collectQueryNames :=
      List.perm_insertionSort (fun a b => a ≤ b) rc.collectQueryNames
    have hne' : List.insertionSort (fun a b => a ≤ b) rc.collectQueryNames ≠ [] := by
      intro hcontra
      have h0 := hperm
      rw [hcontra] at h0
      exact hne (List.Perm.symm h0).eq_nil
    obtain ⟨m, hgl, hmem, hmax⟩ :=
      sorted_getLast?_isMax _ hsorted hne'
    refine ⟨m, ?_, hperm.mem_iff.mp hmem, fun x hx => hmax x (hperm.mem_iff.mpr hx)⟩
    unfold RuleCondition.GetSelectedQueryName
    rw [if_neg (by simp [hsel]), if_neg hF1]
    exact hgl

/-- Witness for C5: the spec's three examples — `{"F2","F1","F3"}` yields
`"F1"`, `{"A","C","B"}` yields its lexicographic maximum (which is `"C"`),
and an explicit `selectedQuery="F2"` wins even when `"F1"` exists. -/
theorem getSelectedQueryName_resolution_witness :
    RuleCondition.GetSelectedQueryName
      ⟨some ⟨QueryType.builder, ["F2", "F1", "F3"], [], none⟩, "", none, "", ""⟩ =
        some "F1" ∧
    (∃ m, RuleCondition.GetSelectedQueryName
        ⟨some ⟨QueryType.builder, ["A", "C", "B"], [], none⟩, "", none, "", ""⟩ =
          some m ∧
      m ∈ RuleCondition.collectQueryNames
        ⟨some ⟨QueryType.builder, ["A", "C", "B"], [], none⟩, "", none, "", ""⟩ ∧
      ∀ x ∈ RuleCondition.collectQueryNames
        ⟨some ⟨QueryType.builder, ["A", "C", "B"], [], none⟩, "", none, "", ""⟩,
        x ≤ m) ∧
    RuleCondition.GetSelectedQueryName
      ⟨some ⟨QueryType.builder, ["F1", "F2"], [], none⟩, "", none, "", "F2"⟩ =
        some "F2" :=
  ⟨(getSelectedQueryName_resolution
      ⟨some ⟨QueryType.builder, ["F2", "F1", "F3"], [], none⟩, "", none, "", ""⟩).2.1
      rfl (by decide),
    (getSelectedQueryName_resolution
      ⟨some ⟨QueryType.builder, ["A", "C", "B"], [], none⟩, "", none, "", ""⟩).2.2
      rfl (by decide) (by decide),
    (getSelectedQueryName_resolution
      ⟨some ⟨QueryType.builder, ["F1", "F2"], [], none⟩, "", none, "", "F2"⟩).1
      (by decide)⟩

/-- C7: `prepareRuleGeneratorURL` returns `""` for an empty source; for a
parseable non-empty source containing `"new"` it keeps the prefix up to the
last occurrence verbatim and appends `edit?ruleId=<ruleId>`; otherwise it
rebuilds `scheme://host[:port]/alerts/edit?ruleId=<ruleId>` from the parsed
source, discarding query parameters — with the spec's two examples as
closed instances. -/
theorem prepareRuleGeneratorURL_spec (ruleId source : String) (parsed : GoURL) :
    (source = "" → prepareRuleGeneratorURL ruleId source = "") ∧
    (source ≠ "" → urlParse source = some parsed →
      (∀ i, lastIndexOfSub source.toList ['n', 'e', 'w'] = some i →
        prepareRuleGeneratorURL ruleId source =
          String.mk (source.toList.take i) ++ "edit?ruleId=" ++ ruleId) ∧
      (lastIndexOfSub source.toList ['n', 'e', 'w'] = none →
        (urlPort parsed.Host ≠ "" →
          prepareRuleGeneratorURL ruleId source =
            parsed.Scheme ++ "://" ++ urlHostname parsed.Host ++ ":" ++
              urlPort parsed.Host ++ "/alerts/edit?ruleId=" ++ ruleId) ∧
        (urlPort parsed.Host = "" →
          prepareRuleGeneratorURL ruleId source =
            parsed.Scheme ++ "://" ++ urlHostname parsed.Host ++
              "/alerts/edit?ruleId=" ++ ruleId))) ∧
    prepareRuleGeneratorURL "r1" "http://host:3301/alerts/new?x=1" =
      "http://host:3301/alerts/edit?ruleId=r1" ∧
    prepareRuleGeneratorURL "r1" "https://app.example.com/alerts/list?x=1" =
      "https://app.example.com/alerts/edit?ruleId=r1" := by
  refine ⟨fun h => ?_, fun hne hparse => ?_, ?_, ?_⟩
  · simp [prepareRuleGeneratorURL, h]
  · refine ⟨fun i hidx => ?_, fun hidx => ⟨fun hport => ?_, fun hport => ?_⟩⟩
    · have hidx' : lastIndexOfSub source.data ['n', 'e', 'w'] = some i := hidx
      simp [prepareRuleGeneratorURL, hne, hparse, hidx']
    · have hidx' : lastIndexOfSub source.data ['n', 'e', 'w'] = none := hidx
      simp [prepareRuleGeneratorURL, hne, hparse, hidx', hport]
    · have hidx' : lastIndexOfSub source.data ['n', 'e', 'w'] = none := hidx
      simp [prepareRuleGeneratorURL, hne, hparse, hidx', hport]
  · rfl
  · rfl

/-- Witness for C7: the rebuild clause applied to the portless example
URL. -/
theorem prepareRuleGeneratorURL_spec_witness :
    prepareRuleGeneratorURL "r2" "https://app.example.com/alerts/list?x=1" =
      "https" ++ "://" ++ urlHostname "app.example.com" ++
        "/alerts/edit?ruleId=" ++ "r2" :=
  (((prepareRuleGeneratorURL_spec "r2" "https://app.example.com/alerts/list?x=1"
      ⟨"https", "app.example.com"⟩).2.1 (by decide) (by decide)).2
    (by decide)).2 (by decide)

/-- C8, counterexample: `"not a url"` does NOT fail Go's lenient URL parser
(it parses as a rootless path with empty scheme and host), so
`prepareRuleGeneratorURL "r1" "not a url"` rebuilds
`":///alerts/edit?ruleId=r1"` instead of returning the claimed `""`. -/
theorem prepareRuleGeneratorURL_not_a_url_cex :
    prepareRuleGeneratorURL "r1" "not a url" = ":///alerts/edit?ruleId=r1" ∧
    prepareRuleGeneratorURL "r1" "not a url" ≠ "" := by
  refine ⟨rfl, by decide⟩

/-- C8 as amended: `prepareRuleGeneratorURL` returns `""` for every
sourceURL that fails to parse (e.g. one containing an ASCII control byte);
the particular input `"not a url"` parses successfully under Go's lenient
parser and instead produces `":///alerts/edit?ruleId=r1"` (see the
counterexample). -/
theorem prepareRuleGeneratorURL_parse_failure (ruleId source : String)
    (h : urlParse source = none) :
    prepareRuleGeneratorURL ruleId source = "" := by
  by_cases hs : source = ""
  · simp [prepareRuleGeneratorURL, hs]
  · simp [prepareRuleGeneratorURL, hs, h]

/-- Witness for C8's amended theorem: a source holding a control byte fails
to parse and yields `""`. -/
theorem prepareRuleGeneratorURL_parse_failure_witness :
    prepareRuleGeneratorURL "r1" "\x00" = "" :=
  prepareRuleGeneratorURL_parse_failure "r1" "\x00" (by decide)

/-! ### Digit-string arithmetic for the duration codec -/

theorem digitsValFrom_nil (x : Nat) : digitsValFrom x [] = x := rfl

theorem digitsValFrom_cons (x : Nat) (c : Char) (l : List Char) :
    digitsValFrom x (c :: l) = digitsValFrom (x * 10 + charDigit c) l := rfl

theorem digitsValFrom_append (x : Nat) (l1 l2 : List Char) :
    digitsValFrom x (l1 ++ l2) = digitsValFrom (digitsValFrom x l1) l2 := by
  simp [digitsValFrom, List.foldl_append]

theorem le_digitsValFrom (x : Nat) (l : List Char) : x ≤ digitsValFrom x l := by
  induction l generalizing x with
  | nil => exact Nat.le_refl x
  | cons c t ih =>
    rw [digitsValFrom_cons]
    exact Nat.le_trans (by omega) (ih (x * 10 + charDigit c))

theorem isDigitChar_toNat (c : Char) (h : isDigitChar c = true) :
    48 ≤ c.toNat ∧ c.toNat ≤ 57 := by
  have h' : ('0' ≤ c ∧ c ≤ '9') := by simpa [isDigitChar] using h
  obtain ⟨h1, h2⟩ := h'
  rw [Char.le_def, UInt32.le_def, BitVec.le_def] at h1 h2
  have e0 : ('0' : Char).val.toBitVec.toNat = 48 := rfl
  have e9 : ('9' : Char).val.toBitVec.toNat = 57 := rfl
  have ec : c.toNat = c.val.toBitVec.toNat := rfl
  omega

theorem charDigit_le_nine (c : Char) (h : isDigitChar c = true) : charDigit c ≤ 9 := by
  have := isDigitChar_toNat c h
  simp only [charDigit]
  have e0 : ('0' : Char).toNat = 48 := rfl
  omega

theorem digitsValFrom_lt (x : Nat) (l : List Char) (h : allDigits l) :
    digitsValFrom x l < (x + 1) * 10 ^ l.length := by
  induction l generalizing x with
  | nil => simp [digitsValFrom]
  | cons c t ih =>
    have h9 := charDigit_le_nine c (h c (List.mem_cons_self c t))
    have ht : allDigits t := fun a ha => h a (List.mem_cons_of_mem c ha)
    rw [digitsValFrom_cons, List.length_cons]
    calc digitsValFrom (x * 10 + charDigit c) t
        < (x * 10 + charDigit c + 1) * 10 ^ t.length := ih (x * 10 + charDigit c) ht
      _ ≤ ((x + 1) * 10) * 10 ^ t.length :=
          Nat.mul_le_mul_right _ (by omega)
      _ = (x + 1) * 10 ^ (t.length + 1) := by
          rw [pow_succ]
          ring

theorem isDigitChar_digitChar (d : Nat) (h : d < 10) :
    isDigitChar (digitChar d) = true := by
  interval_cases d <;> decide

theorem charDigit_digitChar (d : Nat) (h : d < 10) : charDigit (digitChar d) = d := by
  interval_cases d <;> decide

theorem mod_ten_pow_succ (v p : Nat) :
    v % 10 ^ (p + 1) = (v / 10 % 10 ^ p) * 10 + v % 10 := by
  rw [pow_succ', Nat.mod_mul]
  ring

theorem div_ten_pow_succ (v p : Nat) : v / 10 / 10 ^ p = v / 10 ^ (p + 1) := by
  rw [Nat.div_div_eq_div_mul, pow_succ']

theorem fmtIntAux_spec (fuel : Nat) : ∀ v : Nat, v < 10 ^ fuel →
    allDigits (fmtIntAux fuel v) ∧ digitsVal (fmtIntAux fuel v) = v ∧
      (v ≠ 0 → fmtIntAux fuel v ≠ []) := by
  induction fuel with
  | zero =>
    intro v hv
    have hv0 : v = 0 := by simpa using hv
    subst hv0
    exact ⟨fun c hc => absurd hc (by simp [fmtIntAux]), rfl, fun h => absurd rfl h⟩
  | succ fuel ih =>
    intro v hv
    by_cases hv0 : v = 0
    · subst hv0
      exact ⟨fun c hc => absurd hc (by simp [fmtIntAux]), rfl, fun h => absurd rfl h⟩
    · have hdiv : v / 10 < 10 ^ fuel := by
        rw [Nat.div_lt_iff_lt_mul (by norm_num)]
        calc v < 10 ^ (fuel + 1) := hv
          _ = 10 ^ fuel * 10 := by rw [pow_succ]
      obtain ⟨ihd, ihv, _⟩ := ih (v / 10) hdiv
      have hmod : v % 10 < 10 := Nat.mod_lt v (by norm_num)
      have heq : fmtIntAux (fuel + 1) v =
          fmtIntAux fuel (v / 10) ++ [digitChar (v % 10)] := by
        simp [fmtIntAux, hv0]
      refine ⟨?_, ?_, fun _ => by simp [heq]⟩
      · intro c hc
        rw [heq] at hc
        rcases List.mem_append.mp hc with hc | hc
        · exact ihd c hc
        · rw [List.mem_singleton.mp hc]
          exact isDigitChar_digitChar _ hmod
      · rw [heq]
        unfold digitsVal
        rw [digitsValFrom_append]
        show digitsValFrom (digitsVal (fmtIntAux fuel (v / 10))) [digitChar (v % 10)] = v
        rw [ihv, digitsValFrom_cons, digitsValFrom_nil, charDigit_digitChar _ hmod]
        omega

theorem fmtInt_spec (v : Nat) (hv : v < 10 ^ 32) :
    allDigits (fmtInt v) ∧ digitsVal (fmtInt v) = v ∧ fmtInt v ≠ [] := by
  by_cases hv0 : v = 0
  · subst hv0
    refine ⟨?_, rfl, by simp [fmtInt]⟩
    intro c hc
    simp [fmtInt] at hc
    subst hc
    decide
  · obtain ⟨h1, h2, h3⟩ := fmtIntAux_spec 32 v hv
    rw [fmtInt, if_neg hv0]
    exact ⟨h1, h2, h3 hv0⟩

theorem leadingIntAux_cons (x : Nat) (c : Char) (cs : List Char) :
    leadingIntAux x (c :: cs) =
      if isDigitChar c = true then
        if x > 2 ^ 63 / 10 then none
        else if x * 10 + (c.toNat - '0'.toNat) > 2 ^ 63 then none
        else leadingIntAux (x * 10 + (c.toNat - '0'.toNat)) cs
      else some (x, c :: cs) := by
  rfl

theorem leadingIntAux_spec (L : List Char) : ∀ (x : Nat) (rest : List Char),
    allDigits L → (∀ c, rest.head? = some c → isDigitChar c = false) →
    digitsValFrom x L ≤ 2 ^ 63 →
    leadingIntAux x (L ++ rest) = some (digitsValFrom x L, rest) := by
  induction L with
  | nil =>
    intro x rest _ hrest _
    cases rest with
    | nil => rfl
    | cons c cs =>
      rw [List.nil_append, leadingIntAux_cons, if_neg (by simp [hrest c rfl]),
        digitsValFrom_nil]
  | cons c L' ih =>
    intro x rest hall hrest hle
    have hc : isDigitChar c = true := hall c (List.mem_cons_self c L')
    have hall' : allDigits L' := fun a ha => hall a (List.mem_cons_of_mem c ha)
    have hcd : charDigit c = c.toNat - '0'.toNat := rfl
    have hstep : digitsValFrom x (c :: L') =
        digitsValFrom (x * 10 + charDigit c) L' := rfl
    have hx1 : x * 10 + charDigit c ≤ 2 ^ 63 := by
      have := le_digitsValFrom (x * 10 + charDigit c) L'
      rw [hstep] at hle
      omega
    have hxsmall : x ≤ 2 ^ 63 / 10 := by
      rw [Nat.le_div_iff_mul_le (by norm_num)]
      omega
    rw [List.cons_append, leadingIntAux_cons, if_pos hc, if_neg (by omega),
      if_neg (by rw [← hcd]; omega), ← hcd, ← hstep] at *
    exact ih (x * 10 + charDigit c) rest hall' hrest (hstep ▸ hle)

theorem fmtFracAux_succ (prec v : Nat) (printed : Bool) :
    fmtFracAux (prec + 1) v printed =
      ((fmtFracAux prec (v / 10) (printed || decide (v % 10 ≠ 0))).1 ++
        (if (printed || decide (v % 10 ≠ 0)) = true then [digitChar (v % 10)] else []),
       (fmtFracAux prec (v / 10) (printed || decide (v % 10 ≠ 0))).2.1,
       (fmtFracAux prec (v / 10) (printed || decide (v % 10 ≠ 0))).2.2) := by
  rfl

theorem fmtFracAux_true_spec (prec : Nat) : ∀ v : Nat,
    (fmtFracAux prec v true).2.1 = v / 10 ^ prec ∧
    (fmtFracAux prec v true).2.2 = true ∧
    allDigits (fmtFracAux prec v true).1 ∧
    (fmtFracAux prec v true).1.length = prec ∧
    digitsVal (fmtFracAux prec v true).1 = v % 10 ^ prec := by
  induction prec with
  | zero =>
    intro v
    refine ⟨by simp [fmtFracAux], rfl, fun c hc => absurd hc (by simp [fmtFracAux]),
      rfl, by simp [fmtFracAux, digitsVal, digitsValFrom, Nat.mod_one]⟩
  | succ prec ih =>
    intro v
    obtain ⟨ih1, ih2, ih3, ih4, ih5⟩ := ih (v / 10)
    have hmod : v % 10 < 10 := Nat.mod_lt v (by norm_num)
    have hpr : (true || decide (v % 10 ≠ 0)) = true := rfl
    have hif : (if (true : Bool) = true then [digitChar (v % 10)] else []) =
        [digitChar (v % 10)] := rfl
    rw [fmtFracAux_succ, hpr, hif]
    refine ⟨?_, ih2, ?_, ?_, ?_⟩
    · rw [ih1, div_ten_pow_succ]
    · intro c hc
      rcases List.mem_append.mp hc with hc | hc
      · exact ih3 c hc
      · rw [List.mem_singleton.mp hc]
        exact isDigitChar_digitChar _ hmod
    · simp [ih4]
    · unfold digitsVal
      rw [digitsValFrom_append]
      show digitsValFrom (digitsVal _) [digitChar (v % 10)] = _
      rw [ih5, digitsValFrom_cons, digitsValFrom_nil, charDigit_digitChar _ hmod,
        mod_ten_pow_succ]

theorem fmtFracAux_false_spec (prec : Nat) : ∀ v : Nat,
    (fmtFracAux prec v false).2.1 = v / 10 ^ prec ∧
    (v % 10 ^ prec = 0 →
      (fmtFracAux prec v false).1 = [] ∧ (fmtFracAux prec v false).2.2 = false) ∧
    (v % 10 ^ prec ≠ 0 →
      (fmtFracAux prec v false).2.2 = true ∧
      allDigits (fmtFracAux prec v false).1 ∧
      (fmtFracAux prec v false).1 ≠ [] ∧
      (fmtFracAux prec v false).1.length ≤ prec ∧
      digitsVal (fmtFracAux prec v false).1 *
        10 ^ (prec - (fmtFracAux prec v false).1.length) = v % 10 ^ prec) := by
  induction prec with
  | zero =>
    intro v
    exact ⟨by simp [fmtFracAux], fun _ => ⟨rfl, rfl⟩,
      fun h => absurd (by rw [pow_zero]; exact Nat.mod_one v) h⟩
  | succ prec ih =>
    intro v
    have hmodsucc := mod_ten_pow_succ v prec
    by_cases hd : v % 10 = 0
    · obtain ⟨ih1, ih2, ih3⟩ := ih (v / 10)
      have hprint : (false || decide (v % 10 ≠ 0)) = false := by simp [hd]
      have hif : (if (false : Bool) = true then [digitChar (v % 10)] else []) = [] :=
        rfl
      rw [fmtFracAux_succ, hprint, hif, List.append_nil]
      refine ⟨by rw [ih1, div_ten_pow_succ], fun hz => ?_, fun hnz => ?_⟩
      · have hz' : v / 10 % 10 ^ prec = 0 := by omega
        exact ih2 hz'
      · have hnz' : v / 10 % 10 ^ prec ≠ 0 := by omega
        obtain ⟨j1, j2, j3, j4, j5⟩ := ih3 hnz'
        refine ⟨j1, j2, j3, Nat.le_succ_of_le j4, ?_⟩
        have hlen : prec + 1 - (fmtFracAux prec (v / 10) false).1.length =
            (prec - (fmtFracAux prec (v / 10) false).1.length) + 1 := by omega
        rw [hlen, pow_succ, ← Nat.mul_assoc, j5]
        omega
    · obtain ⟨ih1, ih2, ih3, ih4, ih5⟩ := fmtFracAux_true_spec prec (v / 10)
      have hprint : (false || decide (v % 10 ≠ 0)) = true := by simp [hd]
      have hmod : v % 10 < 10 := Nat.mod_lt v (by norm_num)
      have hif : (if (true : Bool) = true then [digitChar (v % 10)] else []) =
          [digitChar (v % 10)] := rfl
      rw [fmtFracAux_succ, hprint, hif]
      refine ⟨by rw [ih1, div_ten_pow_succ], fun hz => absurd hz (by omega),
        fun hnz => ⟨ih2, ?_, by simp, ?_, ?_⟩⟩
      · intro c hc
        rcases List.mem_append.mp hc with hc | hc
        · exact ih3 c hc
        · rw [List.mem_singleton.mp hc]
          exact isDigitChar_digitChar _ hmod
      · simp [ih4]
      · have hlen : ((fmtFracAux prec (v / 10) true).1 ++ [digitChar (v % 10)]).length =
            prec + 1 := by simp [ih4]
        rw [hlen, Nat.sub_self, pow_zero, Nat.mul_one]
        unfold digitsVal
        rw [digitsValFrom_append]
        show digitsValFrom (digitsVal _) [digitChar (v % 10)] = _
        rw [ih5, digitsValFrom_cons, digitsValFrom_nil, charDigit_digitChar _ hmod]
        omega

theorem leadingFractionAux_cons (x scale : Nat) (ov : Bool) (c : Char) (cs : List Char) :
    leadingFractionAux x scale ov (c :: cs) =
      if ¬ isDigitChar c = true then (x, scale, c :: cs)
      else if ov = true then leadingFractionAux x scale true cs
      else if x > (2 ^ 63 - 1) / 10 then leadingFractionAux x scale true cs
      else if x * 10 + (c.toNat - '0'.toNat) > 2 ^ 63 then
        leadingFractionAux x scale true cs
      else leadingFractionAux (x * 10 + (c.toNat - '0'.toNat)) (scale * 10) false cs := by
  cases ov <;> rfl

theorem leadingFractionAux_spec (L : List Char) : ∀ (x scale : Nat) (rest : List Char),
    allDigits L → (∀ c, rest.head? = some c → isDigitChar c = false) →
    digitsValFrom x L ≤ 2 ^ 63 →
    leadingFractionAux x scale false (L ++ rest) =
      (digitsValFrom x L, scale * 10 ^ L.length, rest) := by
  induction L with
  | nil =>
    intro x scale rest _ hrest _
    cases rest with
    | nil => simp [leadingFractionAux, digitsValFrom_nil]
    | cons c cs =>
      rw [List.nil_append, leadingFractionAux_cons,
        if_pos (by simp [hrest c rfl]), digitsValFrom_nil]
      simp
  | cons c L' ih =>
    intro x scale rest hall hrest hle
    have hc : isDigitChar c = true := hall c (List.mem_cons_self c L')
    have hall' : allDigits L' := fun a ha => hall a (List.mem_cons_of_mem c ha)
    have hcd : charDigit c = c.toNat - '0'.toNat := rfl
    have hstep : digitsValFrom x (c :: L') =
        digitsValFrom (x * 10 + charDigit c) L' := rfl
    have hx1 : x * 10 + charDigit c ≤ 2 ^ 63 := by
      have := le_digitsValFrom (x * 10 + charDigit c) L'
      rw [hstep] at hle
      omega
    have hxsmall : x ≤ (2 ^ 63 - 1) / 10 := by
      have h1 : ((2 : Nat) ^ 63 - 1) / 10 = 2 ^ 63 / 10 := by norm_num
      rw [h1, Nat.le_div_iff_mul_le (by norm_num)]
      omega
    rw [List.cons_append, leadingFractionAux_cons, if_neg (by simp [hc]),
      if_neg (by simp), if_neg (by omega), if_neg (by rw [← hcd]; omega), ← hcd]
    rw [hstep] at hle ⊢
    rw [ih (x * 10 + charDigit c) (scale * 10) rest hall' hrest hle]
    have : scale * 10 * 10 ^ L'.length = scale * 10 ^ (L'.length + 1) := by
      rw [pow_succ]
      ring
    rw [this, List.length_cons]

theorem takeWhile_dropWhile_append (p : Char → Bool) (A B : List Char)
    (hA : ∀ a ∈ A, p a = true) (hB : ∀ c, B.head? = some c → p c = false) :
    (A ++ B).takeWhile p = A ∧ (A ++ B).dropWhile p = B := by
  induction A with
  | nil =>
    cases B with
    | nil => simp
    | cons c cs =>
      have := hB c rfl
      simp [List.takeWhile_cons, List.dropWhile_cons, this]
  | cons a A' ih =>
    have ha := hA a (List.mem_cons_self a A')
    have hA' : ∀ a ∈ A', p a = true := fun x hx => hA x (List.mem_cons_of_mem a hx)
    obtain ⟨h1, h2⟩ := ih hA'
    simp [List.takeWhile_cons, List.dropWhile_cons, ha, h1, h2]

theorem scanUnit_append (unitChars rest : List Char)
    (h1 : ∀ c ∈ unitChars, isUnitStop c = false)
    (h2 : ∀ c, rest.head? = some c → isUnitStop c = true) :
    scanUnit (unitChars ++ rest) = (unitChars, rest) := by
  have := takeWhile_dropWhile_append (fun ch => ! isUnitStop ch) unitChars rest
    (fun a ha => by simp [h1 a ha]) (fun c hc => by simp [h2 c hc])
  simp only [scanUnit]
  rw [this.1, this.2]

theorem parseLoop_nil (fuel d : Nat) : parseLoop fuel [] d = some d := by
  cases fuel <;> rfl

theorem unitMapLookup_cases (u : List Char) (unit : Nat)
    (h : unitMapLookup u = some unit) :
    (u = ['n', 's'] ∧ unit = 1) ∨ (u = ['u', 's'] ∧ unit = 1000) ∨
    (u = ['µ', 's'] ∧ unit = 1000) ∨ (u = ['μ', 's'] ∧ unit = 1000) ∨
    (u = ['m', 's'] ∧ unit = 1000000) ∨ (u = ['s'] ∧ unit = 1000000000) ∨
    (u = ['m'] ∧ unit = 60000000000) ∨ (u = ['h'] ∧ unit = 3600000000000) := by
  unfold unitMapLookup at h
  split_ifs at h with h1 h2 h3 h4 h5 h6 h7 h8 <;> simp_all

theorem unitMapLookup_shape (u : List Char) (unit : Nat)
    (h : unitMapLookup u = some unit) :
    u ≠ [] ∧ (∀ c ∈ u, isUnitStop c = false) ∧ 1 ≤ unit ∧ unit ≤ 3600000000000 := by
  rcases unitMapLookup_cases u unit h with
    ⟨hu, hv⟩ | ⟨hu, hv⟩ | ⟨hu, hv⟩ | ⟨hu, hv⟩ | ⟨hu, hv⟩ | ⟨hu, hv⟩ | ⟨hu, hv⟩ | ⟨hu, hv⟩ <;>
    subst hu <;> subst hv <;> exact ⟨by simp, by decide, by norm_num, by norm_num⟩

theorem parseFracPart_dot (tail : List Char) :
    parseFracPart ('.' :: tail) =
      (true, (leadingFraction tail).1, (leadingFraction tail).2.1,
        (leadingFraction tail).2.2) := by
  rfl

theorem parseFracPart_no_dot (s1 : List Char)
    (h : ∀ c, s1.head? = some c → c ≠ '.') :
    parseFracPart s1 = (false, 0, 1, s1) := by
  cases s1 with
  | nil => rfl
  | cons c cs =>
    have hc := h c rfl
    simp only [parseFracPart]
    split
    · next tail heq =>
      injection heq with h1 h2
      exact absurd h1 hc
    · rfl

theorem parseLoop_cons (fuel : Nat) (c : Char) (cs : List Char) (d : Nat) :
    parseLoop (fuel + 1) (c :: cs) d =
      if ¬ (c = '.' ∨ isDigitChar c = true) then none
      else
        match leadingIntAux 0 (c :: cs) with
        | none => none
        | some (v, s1) =>
          if ¬ (s1.length ≠ (c :: cs).length) ∧
              ¬ ((parseFracPart s1).1 = true ∧
                (parseFracPart s1).2.2.2.length ≠ s1.length - 1) then none
          else if (scanUnit (parseFracPart s1).2.2.2).1 = [] then none
          else
            match unitMapLookup (scanUnit (parseFracPart s1).2.2.2).1 with
            | none => none
            | some unit =>
              if v > 2 ^ 63 / unit then none
              else if (parseFracPart s1).2.1 > 0 ∧
                  (if (parseFracPart s1).2.1 > 0 then
                    v * unit + (parseFracPart s1).2.1 * unit / (parseFracPart s1).2.2.1
                  else v * unit) > 2 ^ 63 then none
              else if d + (if (parseFracPart s1).2.1 > 0 then
                    v * unit + (parseFracPart s1).2.1 * unit / (parseFracPart s1).2.2.1
                  else v * unit) > 2 ^ 63 then none
              else parseLoop fuel (scanUnit (parseFracPart s1).2.2.2).2
                (d + (if (parseFracPart s1).2.1 > 0 then
                    v * unit + (parseFracPart s1).2.1 * unit / (parseFracPart s1).2.2.1
                  else v * unit)) := by
  rfl

theorem parseLoop_cons_some (fuel : Nat) (c : Char) (cs : List Char) (d v : Nat)
    (s1 : List Char)
    (hdigit : c = '.' ∨ isDigitChar c = true)
    (hlead : leadingIntAux 0 (c :: cs) = some (v, s1)) :
    parseLoop (fuel + 1) (c :: cs) d =
      (if ¬ (s1.length ≠ (c :: cs).length) ∧
          ¬ ((parseFracPart s1).1 = true ∧
            (parseFracPart s1).2.2.2.length ≠ s1.length - 1) then none
      else if (scanUnit (parseFracPart s1).2.2.2).1 = [] then none
      else
        match unitMapLookup (scanUnit (parseFracPart s1).2.2.2).1 with
        | none => none
        | some unit =>
          if v > 2 ^ 63 / unit then none
          else if (parseFracPart s1).2.1 > 0 ∧
              (if (parseFracPart s1).2.1 > 0 then
                v * unit + (parseFracPart s1).2.1 * unit / (parseFracPart s1).2.2.1
              else v * unit) > 2 ^ 63 then none
          else if d + (if (parseFracPart s1).2.1 > 0 then
                v * unit + (parseFracPart s1).2.1 * unit / (parseFracPart s1).2.2.1
              else v * unit) > 2 ^ 63 then none
          else parseLoop fuel (scanUnit (parseFracPart s1).2.2.2).2
            (d + (if (parseFracPart s1).2.1 > 0 then
                v * unit + (parseFracPart s1).2.1 * unit / (parseFracPart s1).2.2.1
              else v * unit))) := by
  rw [parseLoop_cons, if_neg (fun hcon => hcon hdigit), hlead]

theorem unit_head_props (u : List Char) (unit : Nat)
    (h : unitMapLookup u = some unit) (rest : List Char) :
    (∀ c, (u ++ rest).head? = some c → isDigitChar c = false) ∧
    (∀ c, (u ++ rest).head? = some c → c ≠ '.') := by
  obtain ⟨hne, hstop, _, _⟩ := unitMapLookup_shape u unit h
  cases u with
  | nil => exact absurd rfl hne
  | cons a u' =>
    have hstopa := hstop a (List.mem_cons_self a u')
    have hstopa' : ¬ (a = '.') ∧ isDigitChar a = false := by
      constructor
      · intro hdot
        rw [hdot] at hstopa
        exact absurd hstopa (by decide)
      · by_cases hd : isDigitChar a = true
        · rw [isUnitStop, hd] at hstopa
          simp at hstopa
        · simpa using hd
    refine ⟨fun c hc => ?_, fun c hc => ?_⟩
    · have hca : a = c := by simpa using hc
      rw [← hca]
      exact hstopa'.2
    · have hca : a = c := by simpa using hc
      rw [← hca]
      exact hstopa'.1

theorem rest_head_unitStop (rest : List Char)
    (hrest : rest = [] ∨ ∃ c cs, rest = c :: cs ∧ (c = '.' ∨ isDigitChar c = true)) :
    ∀ c, rest.head? = some c → isUnitStop c = true := by
  intro c hc
  rcases hrest with h | ⟨a, as, ha, hprop⟩
  · subst h
    simp at hc
  · subst ha
    have hca : a = c := by simpa using hc
    subst hca
    rcases hprop with h | h
    · simp [isUnitStop, h]
    · simp [isUnitStop, h]

theorem digitsVal_lt_pow (L : List Char) (h : allDigits L) :
    digitsVal L < 10 ^ L.length := by
  have := digitsValFrom_lt 0 L h
  simpa [digitsVal] using this

/-- One `ParseDuration` loop iteration over a fraction-free component: the
decimal rendering of `v` followed by a recognized unit name adds `v * unit`
to the accumulator. -/
theorem parseLoop_step_int (fuel v unit : Nat) (unitChars rest : List Char) (d : Nat)
    (hu : unitMapLookup unitChars = some unit)
    (hrest : rest = [] ∨ ∃ c cs, rest = c :: cs ∧ (c = '.' ∨ isDigitChar c = true))
    (hov : d + v * unit ≤ 2 ^ 63)
    (hv32 : v < 10 ^ 32) :
    parseLoop (fuel + 1) (fmtInt v ++ unitChars ++ rest) d =
      parseLoop fuel rest (d + v * unit) := by
  obtain ⟨hdig, hval, hne⟩ := fmtInt_spec v hv32
  obtain ⟨hcne, hstop, hupos, _⟩ := unitMapLookup_shape unitChars unit hu
  obtain ⟨hhead_nd, hhead_dot⟩ := unit_head_props unitChars unit hu rest
  have hvle : v ≤ 2 ^ 63 := by
    have h1 : v * 1 ≤ v * unit := Nat.mul_le_mul_left v hupos
    omega
  have hlead : leadingIntAux 0 (fmtInt v ++ (unitChars ++ rest)) =
      some (v, unitChars ++ rest) := by
    have h0 : digitsValFrom 0 (fmtInt v) = v := hval
    have := leadingIntAux_spec (fmtInt v) 0 (unitChars ++ rest) hdig hhead_nd
      (by rw [h0]; exact hvle)
    rw [h0] at this
    exact this
  obtain ⟨c0, cs0, hL⟩ : ∃ c0 cs0, fmtInt v = c0 :: cs0 := by
    cases hfi : fmtInt v with
    | nil => exact absurd hfi hne
    | cons a b => exact ⟨a, b, rfl⟩
  have hc0 : isDigitChar c0 = true := hdig c0 (by rw [hL]; exact List.mem_cons_self c0 cs0)
  rw [hL, List.cons_append] at hlead
  rw [List.append_assoc, hL, List.cons_append,
    parseLoop_cons_some fuel c0 (cs0 ++ (unitChars ++ rest)) d v (unitChars ++ rest)
      (Or.inr hc0) hlead]
  have hfp : parseFracPart (unitChars ++ rest) = (false, 0, 1, unitChars ++ rest) :=
    parseFracPart_no_dot (unitChars ++ rest) hhead_dot
  rw [hfp]
  dsimp only
  have hpre : ¬ (¬ ((unitChars ++ rest).length ≠
        (c0 :: (cs0 ++ (unitChars ++ rest))).length) ∧
      ¬ ((false : Bool) = true ∧
        (unitChars ++ rest).length ≠ (unitChars ++ rest).length - 1)) := by
    intro hcon
    exact hcon.1 (by simp; omega)
  rw [if_neg hpre]
  have hscan : scanUnit (unitChars ++ rest) = (unitChars, rest) :=
    scanUnit_append unitChars rest hstop (rest_head_unitStop rest hrest)
  rw [hscan]
  dsimp only
  rw [if_neg hcne, hu]
  dsimp only
  have hmul : v * unit ≤ 2 ^ 63 := by omega
  have hguard : ¬ v > 2 ^ 63 / unit := by
    have : v ≤ 2 ^ 63 / unit := (Nat.le_div_iff_mul_le hupos).mpr hmul
    omega
  rw [if_neg hguard]
  have hv2 : (if (0 : Nat) > 0 then v * unit + 0 * unit / 1 else v * unit) =
      v * unit := if_neg (by decide)
  rw [hv2]
  rw [if_neg (fun hcon => absurd hcon.1 (by decide)), if_neg (by omega)]

/-- One `ParseDuration` loop iteration over a component with a fractional
part: `v.L` followed by the unit `10^prec` adds
`v * 10^prec + digitsVal L * 10^(prec - |L|)` to the accumulator. -/
theorem parseLoop_step_frac (fuel v prec unit : Nat) (L unitChars rest : List Char)
    (d : Nat)
    (hu : unitMapLookup unitChars = some unit)
    (hunit : unit = 10 ^ prec)
    (hprec : prec ≤ 9)
    (hL : allDigits L) (hLne : L ≠ []) (hLlen : L.length ≤ prec)
    (hf0 : digitsVal L ≠ 0)
    (hrest : rest = [] ∨ ∃ c cs, rest = c :: cs ∧ (c = '.' ∨ isDigitChar c = true))
    (hov : d + (v * unit + digitsVal L * 10 ^ (prec - L.length)) ≤ 2 ^ 63)
    (hv32 : v < 10 ^ 32) :
    parseLoop (fuel + 1) (fmtInt v ++ ('.' :: L) ++ unitChars ++ rest) d =
      parseLoop fuel rest (d + (v * unit + digitsVal L * 10 ^ (prec - L.length))) := by
  obtain ⟨hdig, hval, hne⟩ := fmtInt_spec v hv32
  obtain ⟨hcne, hstop, hupos, _⟩ := unitMapLookup_shape unitChars unit hu
  obtain ⟨hhead_nd, _⟩ := unit_head_props unitChars unit hu rest
  have hfbound : digitsVal L < 10 ^ 9 := by
    calc digitsVal L < 10 ^ L.length := digitsVal_lt_pow L hL
      _ ≤ 10 ^ 9 := Nat.pow_le_pow_right (by norm_num) (by omega)
  have hvle : v ≤ 2 ^ 63 := by
    have h1 : v * 1 ≤ v * unit := Nat.mul_le_mul_left v hupos
    omega
  -- the fractional contribution is an exact power-of-ten product
  have hdivexact : digitsVal L * unit / (1 * 10 ^ L.length) =
      digitsVal L * 10 ^ (prec - L.length) := by
    rw [hunit, Nat.one_mul]
    have hsplit : (10 : Nat) ^ prec = 10 ^ (prec - L.length) * 10 ^ L.length := by
      rw [← pow_add]
      congr 1
      omega
    rw [hsplit, ← Nat.mul_assoc]
    exact Nat.mul_div_cancel _ (Nat.pos_pow_of_pos _ (by norm_num))
  -- leadingInt stops at the dot
  have hdotrest : ∀ c, ('.' :: (L ++ (unitChars ++ rest))).head? = some c →
      isDigitChar c = false := by
    intro c hc
    have : ('.' : Char) = c := by simpa using hc
    rw [← this]
    decide
  have hlead : leadingIntAux 0 (fmtInt v ++ ('.' :: (L ++ (unitChars ++ rest)))) =
      some (v, '.' :: (L ++ (unitChars ++ rest))) := by
    have h0 : digitsValFrom 0 (fmtInt v) = v := hval
    have := leadingIntAux_spec (fmtInt v) 0 ('.' :: (L ++ (unitChars ++ rest)))
      hdig hdotrest (by rw [h0]; exact hvle)
    rw [h0] at this
    exact this
  -- the fraction scan
  have hfrac : leadingFraction (L ++ (unitChars ++ rest)) =
      (digitsVal L, 1 * 10 ^ L.length, unitChars ++ rest) := by
    have := leadingFractionAux_spec L 0 1 (unitChars ++ rest) hL hhead_nd
      (by show digitsVal L ≤ 2 ^ 63; omega)
    exact this
  obtain ⟨c0, cs0, hLfi⟩ : ∃ c0 cs0, fmtInt v = c0 :: cs0 := by
    cases hfi : fmtInt v with
    | nil => exact absurd hfi hne
    | cons a b => exact ⟨a, b, rfl⟩
  have hc0 : isDigitChar c0 = true :=
    hdig c0 (by rw [hLfi]; exact List.mem_cons_self c0 cs0)
  have hshape : fmtInt v ++ ('.' :: L) ++ unitChars ++ rest =
      c0 :: (cs0 ++ ('.' :: (L ++ (unitChars ++ rest)))) := by
    rw [hLfi]
    simp
  rw [hLfi, List.cons_append] at hlead
  rw [hshape, parseLoop_cons_some fuel c0 (cs0 ++ ('.' :: (L ++ (unitChars ++ rest)))) d v
    ('.' :: (L ++ (unitChars ++ rest))) (Or.inr hc0) hlead]
  have hfp : parseFracPart ('.' :: (L ++ (unitChars ++ rest))) =
      ((true : Bool), digitsVal L, 1 * 10 ^ L.length, unitChars ++ rest) := by
    rw [parseFracPart_dot, hfrac]
  rw [hfp]
  dsimp only
  have hpre : ¬ (¬ (('.' :: (L ++ (unitChars ++ rest))).length ≠
        (c0 :: (cs0 ++ ('.' :: (L ++ (unitChars ++ rest))))).length) ∧
      ¬ ((true : Bool) = true ∧
        (unitChars ++ rest).length ≠
          ('.' :: (L ++ (unitChars ++ rest))).length - 1)) := by
    intro hcon
    exact hcon.1 (by simp; omega)
  rw [if_neg hpre]
  have hscan : scanUnit (unitChars ++ rest) = (unitChars, rest) :=
    scanUnit_append unitChars rest hstop (rest_head_unitStop rest hrest)
  rw [hscan]
  dsimp only
  rw [if_neg hcne, hu]
  dsimp only
  have hmul : v * unit ≤ 2 ^ 63 := by omega
  have hguard : ¬ v > 2 ^ 63 / unit := by
    have : v ≤ 2 ^ 63 / unit := (Nat.le_div_iff_mul_le hupos).mpr hmul
    omega
  rw [if_neg hguard]
  have hifv2 : (if digitsVal L > 0 then
      v * unit + digitsVal L * unit / (1 * 10 ^ L.length)
    else v * unit) = v * unit + digitsVal L * 10 ^ (prec - L.length) := by
    rw [if_pos (by omega), hdivexact]
  rw [hifv2]
  rw [if_neg (by intro hcon; omega), if_neg (by omega)]

theorem fmtFrac_spec (v prec : Nat) :
    (fmtFrac v prec).2 = v / 10 ^ prec ∧
      FracRep (fmtFrac v prec).1 prec (v % 10 ^ prec) := by
  obtain ⟨h1, h2, h3⟩ := fmtFracAux_false_spec prec v
  refine ⟨h1, ?_⟩
  by_cases hz : v % 10 ^ prec = 0
  · obtain ⟨hz1, hz2⟩ := h2 hz
    exact Or.inl ⟨by simp [fmtFrac, hz1, hz2], hz⟩
  · obtain ⟨j1, j2, j3, j4, j5⟩ := h3 hz
    refine Or.inr ⟨(fmtFracAux prec v false).1, by simp [fmtFrac, j1], j2, j3, j4, j5, ?_⟩
    intro hdv
    rw [hdv] at j5
    simp at j5
    exact hz j5.symm

theorem fmtInt_head (v : Nat) (hv : v < 10 ^ 32) (tail : List Char) :
    ∃ c cs, fmtInt v ++ tail = c :: cs ∧ (c = '.' ∨ isDigitChar c = true) := by
  obtain ⟨hdig, _, hne⟩ := fmtInt_spec v hv
  cases hfi : fmtInt v with
  | nil => exact absurd hfi hne
  | cons a b =>
    refine ⟨a, b ++ tail, by simp, Or.inr (hdig a ?_)⟩
    rw [hfi]
    exact List.mem_cons_self a b

/-- The final seconds-like component of a formatted duration: integer part,
optional fraction, and a unit worth `10^prec` nanoseconds, parsed to
completion. -/
theorem parseLoop_final_comp (fuel v prec unit val : Nat) (fr1 unitChars : List Char)
    (d : Nat)
    (hu : unitMapLookup unitChars = some unit)
    (hunit : unit = 10 ^ prec)
    (hprec : prec ≤ 9)
    (hfr : FracRep fr1 prec val)
    (hov : d + (v * unit + val) ≤ 2 ^ 63)
    (hv32 : v < 10 ^ 32) :
    parseLoop (fuel + 1) (fmtInt v ++ fr1 ++ unitChars) d =
      some (d + (v * unit + val)) := by
  rcases hfr with ⟨hnil, hval⟩ | ⟨L, hdot, hLd, hLne, hLlen, hLval, hLnz⟩
  · subst hval
    have hstep := parseLoop_step_int fuel v unit unitChars [] d hu (Or.inl rfl)
      (by omega) hv32
    rw [List.append_nil] at hstep
    rw [hnil, List.append_nil, hstep, parseLoop_nil, Nat.add_zero]
  · have hstep := parseLoop_step_frac fuel v prec unit L unitChars [] d hu hunit hprec
      hLd hLne hLlen hLnz (Or.inl rfl) (by rw [hLval]; omega) hv32
    rw [List.append_nil] at hstep
    rw [hdot, hstep, parseLoop_nil, hLval]

theorem goDurationBody_ns (u : Nat) (h0 : u ≠ 0) (h : u < 1000) :
    goDurationBody u = fmtInt u ++ ['n', 's'] := by
  unfold goDurationBody
  rw [if_pos (by omega : u < 1000000000), if_neg h0, if_pos h]
  have h2 : fmtFrac u 0 = ([], u) := rfl
  rw [h2]
  simp

theorem goDurationBody_us (u : Nat) (hlo : ¬ u < 1000) (hhi : u < 1000000) :
    goDurationBody u = fmtInt (u / 1000) ++ (fmtFrac u 3).1 ++ ['µ', 's'] := by
  unfold goDurationBody
  rw [if_pos (by omega : u < 1000000000), if_neg (by omega : ¬ u = 0), if_neg hlo,
    if_pos hhi]
  have h2 : (fmtFrac u 3).2 = u / 1000 := by
    have := (fmtFrac_spec u 3).1
    norm_num at this
    exact this
  rw [h2]

theorem goDurationBody_ms (u : Nat) (hlo : ¬ u < 1000000) (hhi : u < 1000000000) :
    goDurationBody u = fmtInt (u / 1000000) ++ (fmtFrac u 6).1 ++ ['m', 's'] := by
  unfold goDurationBody
  rw [if_pos hhi, if_neg (by omega : ¬ u = 0), if_neg (by omega : ¬ u < 1000),
    if_neg hlo]
  have h2 : (fmtFrac u 6).2 = u / 1000000 := by
    have := (fmtFrac_spec u 6).1
    norm_num at this
    exact this
  rw [h2]

theorem goDurationBody_s0 (u : Nat) (hge : ¬ u < 1000000000)
    (hm : u / 1000000000 / 60 = 0) :
    goDurationBody u =
      fmtInt (u / 1000000000 % 60) ++ (fmtFrac u 9).1 ++ ['s'] := by
  have hfr2 : (fmtFrac u 9).2 = u / 1000000000 := by
    have := (fmtFrac_spec u 9).1
    norm_num at this
    exact this
  unfold goDurationBody
  rw [if_neg hge]
  dsimp only
  rw [hfr2, if_pos hm]

theorem goDurationBody_sm (u : Nat) (hge : ¬ u < 1000000000)
    (hm : ¬ u / 1000000000 / 60 = 0) (hh : u / 1000000000 / 60 / 60 = 0) :
    goDurationBody u =
      fmtInt (u / 1000000000 / 60 % 60) ++ ['m'] ++
        (fmtInt (u / 1000000000 % 60) ++ (fmtFrac u 9).1 ++ ['s']) := by
  have hfr2 : (fmtFrac u 9).2 = u / 1000000000 := by
    have := (fmtFrac_spec u 9).1
    norm_num at this
    exact this
  unfold goDurationBody
  rw [if_neg hge]
  dsimp only
  rw [hfr2, if_neg hm, if_pos hh]

theorem goDurationBody_sh (u : Nat) (hge : ¬ u < 1000000000)
    (hm : ¬ u / 1000000000 / 60 = 0) (hh : ¬ u / 1000000000 / 60 / 60 = 0) :
    goDurationBody u =
      fmtInt (u / 1000000000 / 60 / 60) ++ ['h'] ++
        (fmtInt (u / 1000000000 / 60 % 60) ++ ['m'] ++
          (fmtInt (u / 1000000000 % 60) ++ (fmtFrac u 9).1 ++ ['s'])) := by
  have hfr2 : (fmtFrac u 9).2 = u / 1000000000 := by
    have := (fmtFrac_spec u 9).1
    norm_num at this
    exact this
  unfold goDurationBody
  rw [if_neg hge]
  dsimp only
  rw [hfr2, if_neg hm, if_neg hh]

/-- The unsigned body of a formatted duration parses back to its value. -/
theorem parseLoop_body (u : Nat) (hu : u ≤ 2 ^ 63) :
    parseLoop (goDurationBody u).length (goDurationBody u) 0 = some u := by
  have hP63 : (2 : Nat) ^ 63 = 9223372036854775808 := by norm_num
  have h32 : ∀ w : Nat, w ≤ 2 ^ 63 → w < 10 ^ 32 := by
    intro w hw
    calc w ≤ 2 ^ 63 := hw
      _ < 10 ^ 32 := by norm_num
  by_cases h0 : u = 0
  · subst h0
    decide
  by_cases h1 : u < 1000
  · -- nanoseconds
    rw [goDurationBody_ns u h0 h1]
    have hfuel : (fmtInt u ++ ['n', 's']).length =
        ((fmtInt u ++ ['n', 's']).length - 1) + 1 := by
      simp only [List.length_append, List.length_cons, List.length_nil]
      omega
    rw [hfuel]
    have hcomp := parseLoop_final_comp ((fmtInt u ++ ['n', 's']).length - 1) u 0 1 0
      [] ['n', 's'] 0 rfl (by norm_num) (by norm_num) (Or.inl ⟨rfl, rfl⟩)
      (by omega) (h32 u hu)
    rw [List.append_nil] at hcomp
    rw [hcomp]
    norm_num
  by_cases h2 : u < 1000000
  · -- microseconds
    rw [goDurationBody_us u h1 h2]
    have hfr : FracRep (fmtFrac u 3).1 3 (u % 1000) := by
      have := (fmtFrac_spec u 3).2
      norm_num at this
      exact this
    have hfuel : (fmtInt (u / 1000) ++ (fmtFrac u 3).1 ++ ['µ', 's']).length =
        ((fmtInt (u / 1000) ++ (fmtFrac u 3).1 ++ ['µ', 's']).length - 1) + 1 := by
      simp only [List.length_append, List.length_cons, List.length_nil]
      omega
    rw [hfuel]
    have hcomp := parseLoop_final_comp
      ((fmtInt (u / 1000) ++ (fmtFrac u 3).1 ++ ['µ', 's']).length - 1)
      (u / 1000) 3 1000 (u % 1000) (fmtFrac u 3).1 ['µ', 's'] 0 rfl
      (by norm_num) (by norm_num) hfr (by omega) (h32 (u / 1000) (by omega))
    rw [hcomp]
    congr 1
    omega
  by_cases h3 : u < 1000000000
  · -- milliseconds
    rw [goDurationBody_ms u h2 h3]
    have hfr : FracRep (fmtFrac u 6).1 6 (u % 1000000) := by
      have := (fmtFrac_spec u 6).2
      norm_num at this
      exact this
    have hfuel : (fmtInt (u / 1000000) ++ (fmtFrac u 6).1 ++ ['m', 's']).length =
        ((fmtInt (u / 1000000) ++ (fmtFrac u 6).1 ++ ['m', 's']).length - 1) + 1 := by
      simp only [List.length_append, List.length_cons, List.length_nil]
      omega
    rw [hfuel]
    have hcomp := parseLoop_final_comp
      ((fmtInt (u / 1000000) ++ (fmtFrac u 6).1 ++ ['m', 's']).length - 1)
      (u / 1000000) 6 1000000 (u % 1000000) (fmtFrac u 6).1 ['m', 's'] 0 rfl
      (by norm_num) (by norm_num) hfr (by omega) (h32 (u / 1000000) (by omega))
    rw [hcomp]
    congr 1
    omega
  -- at least one second
  have hfr : FracRep (fmtFrac u 9).1 9 (u % 1000000000) := by
    have := (fmtFrac_spec u 9).2
    norm_num at this
    exact this
  by_cases hm : u / 1000000000 / 60 = 0
  · -- seconds only
    rw [goDurationBody_s0 u h3 hm]
    have hfuel : (fmtInt (u / 1000000000 % 60) ++ (fmtFrac u 9).1 ++ ['s']).length =
        ((fmtInt (u / 1000000000 % 60) ++ (fmtFrac u 9).1 ++ ['s']).length - 1) + 1 := by
      simp only [List.length_append, List.length_cons, List.length_nil]
      omega
    rw [hfuel]
    have hcomp := parseLoop_final_comp
      ((fmtInt (u / 1000000000 % 60) ++ (fmtFrac u 9).1 ++ ['s']).length - 1)
      (u / 1000000000 % 60) 9 1000000000 (u % 1000000000) (fmtFrac u 9).1 ['s'] 0
      rfl (by norm_num) (by norm_num) hfr (by omega)
      (h32 (u / 1000000000 % 60) (by omega))
    rw [hcomp]
    congr 1
    omega
  by_cases hh : u / 1000000000 / 60 / 60 = 0
  · -- minutes and seconds
    rw [goDurationBody_sm u h3 hm hh]
    obtain ⟨cS, csS, hS, hSd⟩ :=
      fmtInt_head (u / 1000000000 % 60) (h32 _ (by omega)) ((fmtFrac u 9).1 ++ ['s'])
    have hfuel : (fmtInt (u / 1000000000 / 60 % 60) ++ ['m'] ++
          (fmtInt (u / 1000000000 % 60) ++ (fmtFrac u 9).1 ++ ['s'])).length =
        ((fmtInt (u / 1000000000 / 60 % 60) ++ ['m'] ++
          (fmtInt (u / 1000000000 % 60) ++ (fmtFrac u 9).1 ++ ['s'])).length - 2) + 1 + 1 := by
      simp only [List.length_append, List.length_cons, List.length_nil]
      omega
    rw [hfuel]
    have hstep := parseLoop_step_int
      ((fmtInt (u / 1000000000 / 60 % 60) ++ ['m'] ++
        (fmtInt (u / 1000000000 % 60) ++ (fmtFrac u 9).1 ++ ['s'])).length - 2 + 1)
      (u / 1000000000 / 60 % 60) 60000000000 ['m']
      (fmtInt (u / 1000000000 % 60) ++ (fmtFrac u 9).1 ++ ['s']) 0 rfl
      (Or.inr ⟨cS, csS, by rw [List.append_assoc]; exact hS, hSd⟩)
      (by omega) (h32 _ (by omega))
    rw [hstep]
    have hcomp := parseLoop_final_comp
      ((fmtInt (u / 1000000000 / 60 % 60) ++ ['m'] ++
        (fmtInt (u / 1000000000 % 60) ++ (fmtFrac u 9).1 ++ ['s'])).length - 2)
      (u / 1000000000 % 60) 9 1000000000 (u % 1000000000) (fmtFrac u 9).1 ['s']
      (0 + u / 1000000000 / 60 % 60 * 60000000000)
      rfl (by norm_num) (by norm_num) hfr (by omega)
      (h32 (u / 1000000000 % 60) (by omega))
    rw [hcomp]
    congr 1
    omega
  · -- hours, minutes and seconds
    rw [goDurationBody_sh u h3 hm hh]
    obtain ⟨cM, csM, hM, hMd⟩ :=
      fmtInt_head (u / 1000000000 / 60 % 60) (h32 _ (by omega))
        (['m'] ++ (fmtInt (u / 1000000000 % 60) ++ (fmtFrac u 9).1 ++ ['s']))
    obtain ⟨cS, csS, hS, hSd⟩ :=
      fmtInt_head (u / 1000000000 % 60) (h32 _ (by omega)) ((fmtFrac u 9).1 ++ ['s'])
    have hfuel : (fmtInt (u / 1000000000 / 60 / 60) ++ ['h'] ++
          (fmtInt (u / 1000000000 / 60 % 60) ++ ['m'] ++
            (fmtInt (u / 1000000000 % 60) ++ (fmtFrac u 9).1 ++ ['s']))).length =
        ((fmtInt (u / 1000000000 / 60 / 60) ++ ['h'] ++
          (fmtInt (u / 1000000000 / 60 % 60) ++ ['m'] ++
            (fmtInt (u / 1000000000 % 60) ++ (fmtFrac u 9).1 ++ ['s']))).length - 3) +
          1 + 1 + 1 := by
      simp only [List.length_append, List.length_cons, List.length_nil]
      omega
    rw [hfuel]
    have hstepH := parseLoop_step_int
      ((fmtInt (u / 1000000000 / 60 / 60) ++ ['h'] ++
        (fmtInt (u / 1000000000 / 60 % 60) ++ ['m'] ++
          (fmtInt (u / 1000000000 % 60) ++ (fmtFrac u 9).1 ++ ['s']))).length - 3 + 1 + 1)
      (u / 1000000000 / 60 / 60) 3600000000000 ['h']
      (fmtInt (u / 1000000000 / 60 % 60) ++ ['m'] ++
        (fmtInt (u / 1000000000 % 60) ++ (fmtFrac u 9).1 ++ ['s'])) 0 rfl
      (Or.inr ⟨cM, csM, by rw [List.append_assoc]; exact hM, hMd⟩)
      (by omega) (h32 _ (by omega))
    rw [hstepH]
    have hstepM := parseLoop_step_int
      ((fmtInt (u / 1000000000 / 60 / 60) ++ ['h'] ++
        (fmtInt (u / 1000000000 / 60 % 60) ++ ['m'] ++
          (fmtInt (u / 1000000000 % 60) ++ (fmtFrac u 9).1 ++ ['s']))).length - 3 + 1)
      (u / 1000000000 / 60 % 60) 60000000000 ['m']
      (fmtInt (u / 1000000000 % 60) ++ (fmtFrac u 9).1 ++ ['s'])
      (0 + u / 1000000000 / 60 / 60 * 3600000000000) rfl
      (Or.inr ⟨cS, csS, by rw [List.append_assoc]; exact hS, hSd⟩)
      (by omega) (h32 _ (by omega))
    rw [hstepM]
    have hcomp := parseLoop_final_comp
      ((fmtInt (u / 1000000000 / 60 / 60) ++ ['h'] ++
        (fmtInt (u / 1000000000 / 60 % 60) ++ ['m'] ++
          (fmtInt (u / 1000000000 % 60) ++ (fmtFrac u 9).1 ++ ['s']))).length - 3)
      (u / 1000000000 % 60) 9 1000000000 (u % 1000000000) (fmtFrac u 9).1 ['s']
      (0 + u / 1000000000 / 60 / 60 * 3600000000000 +
        u / 1000000000 / 60 % 60 * 60000000000)
      rfl (by norm_num) (by norm_num) hfr (by omega)
      (h32 (u / 1000000000 % 60) (by omega))
    rw [hcomp]
    congr 1
    omega

/-- A formatted duration body starts with a digit and has at least two
characters. -/
theorem goDurationBody_shape (u : Nat) (hu : u ≤ 2 ^ 63) :
    ∃ c cs, goDurationBody u = c :: cs ∧ isDigitChar c = true ∧ cs ≠ [] := by
  have h32 : ∀ w : Nat, w ≤ 2 ^ 63 → w < 10 ^ 32 := by
    intro w hw
    calc w ≤ 2 ^ 63 := hw
      _ < 10 ^ 32 := by norm_num
  have grab : ∀ (x : Nat) (tail : List Char), x < 10 ^ 32 → tail ≠ [] →
      ∃ c cs, fmtInt x ++ tail = c :: cs ∧ isDigitChar c = true ∧ cs ≠ [] := by
    intro x tail hx htail
    obtain ⟨hdig, _, hne⟩ := fmtInt_spec x hx
    cases hfi : fmtInt x with
    | nil => exact absurd hfi hne
    | cons a b =>
      refine ⟨a, b ++ tail, by simp, hdig a (by rw [hfi]; exact List.mem_cons_self a b), ?_⟩
      intro hcon
      rcases List.append_eq_nil.mp hcon with ⟨_, h2⟩
      exact htail h2
  by_cases h0 : u = 0
  · subst h0
    exact ⟨'0', ['s'], rfl, by decide, by simp⟩
  by_cases h1 : u < 1000
  · rw [goDurationBody_ns u h0 h1]
    exact grab u ['n', 's'] (h32 u hu) (by simp)
  by_cases h2 : u < 1000000
  · rw [goDurationBody_us u h1 h2, List.append_assoc]
    exact grab (u / 1000) _ (h32 _ (by omega)) (by simp)
  by_cases h3 : u < 1000000000
  · rw [goDurationBody_ms u h2 h3, List.append_assoc]
    exact grab (u / 1000000) _ (h32 _ (by omega)) (by simp)
  by_cases hm : u / 1000000000 / 60 = 0
  · rw [goDurationBody_s0 u h3 hm, List.append_assoc]
    exact grab (u / 1000000000 % 60) _ (h32 _ (by omega)) (by simp)
  by_cases hh : u / 1000000000 / 60 / 60 = 0
  · rw [goDurationBody_sm u h3 hm hh, List.append_assoc]
    exact grab (u / 1000000000 / 60 % 60) _ (h32 _ (by omega)) (by simp)
  · rw [goDurationBody_sh u h3 hm hh, List.append_assoc]
    exact grab (u / 1000000000 / 60 / 60) _ (h32 _ (by omega)) (by simp)

/-- Round trip: parsing the formatted rendering of any 64-bit duration
recovers the duration. -/
theorem goParseDuration_roundtrip (d : Int) (hlo : -(2 ^ 63) ≤ d)
    (hhi : d < 2 ^ 63) :
    goParseDuration (goDurationString d) = some d := by
  have hu : d.natAbs ≤ 2 ^ 63 := by
    have hP : ((2 : Int) ^ 63) = 9223372036854775808 := by norm_num
    have hPn : ((2 : Nat) ^ 63) = 9223372036854775808 := by norm_num
    rw [hP] at hlo hhi
    rw [hPn]
    omega
  obtain ⟨c, cs, hbody, hcd, hcs⟩ := goDurationBody_shape d.natAbs hu
  have hc45 := isDigitChar_toNat c hcd
  have hcdash : ¬ c = '-' := by
    intro h
    rw [h] at hc45
    have : ('-' : Char).toNat = 45 := rfl
    omega
  have hcplus : ¬ c = '+' := by
    intro h
    rw [h] at hc45
    have : ('+' : Char).toNat = 43 := rfl
    omega
  have hnotzero : ¬ goDurationBody d.natAbs = ['0'] := by
    intro hcon
    rw [hcon] at hbody
    injection hbody with hb1 hb2
    exact hcs hb2.symm
  have hnotnil : ¬ goDurationBody d.natAbs = [] := by
    intro hcon
    rw [hcon] at hbody
    cases hbody
  have hparse := parseLoop_body d.natAbs hu
  by_cases hneg : d < 0
  · have hfmt : goDurationFormat d = '-' :: goDurationBody d.natAbs := by
      unfold goDurationFormat
      rw [if_pos hneg]
      rfl
    rw [show goDurationString d = String.mk (goDurationFormat d) from rfl, hfmt]
    show goParseDuration (String.mk ('-' :: goDurationBody d.natAbs)) = some d
    unfold goParseDuration
    dsimp only [String.toList]
    rw [if_pos rfl]
    dsimp only
    rw [if_neg hnotzero, if_neg hnotnil, hparse]
    dsimp only
    rw [if_pos rfl]
    congr 1
    omega
  · have hfmt : goDurationFormat d = goDurationBody d.natAbs := by
      unfold goDurationFormat
      rw [if_neg hneg]
    rw [show goDurationString d = String.mk (goDurationFormat d) from rfl, hfmt,
      hbody]
    show goParseDuration (String.mk (c :: cs)) = some d
    unfold goParseDuration
    dsimp only [String.toList]
    rw [if_neg hcdash, if_neg hcplus]
    dsimp only
    rw [← hbody, if_neg hnotzero, if_neg hnotnil, hparse]
    dsimp only
    rw [if_neg (by simp), if_neg ?hbound]
    case hbound =>
      have hP : ((2 : Nat) ^ 63) = 9223372036854775808 := by norm_num
      rw [hP]
      have hP2 : ((2 : Int) ^ 63) = 9223372036854775808 := by norm_num
      rw [hP2] at hhi
      omega
    congr 1
    omega

/-- C9: the Duration codec round trip — `MarshalJSON` emits the
human-readable duration string, and `UnmarshalJSON` of that string returns
the same value, for every 64-bit duration; 90 seconds encodes to
`"1m30s"` and decodes back; the JSON number 90000000000 decodes to 90
seconds (nanosecond interpretation); decoding `"notaduration"` fails. -/
theorem durationCodec_roundtrip (d : Int) (hlo : -(2 ^ 63) ≤ d)
    (hhi : d < 2 ^ 63) :
    durationMarshalJSON d = JSONValue.str (goDurationString d) ∧
    durationUnmarshalJSON (durationMarshalJSON d) = some d ∧
    goDurationString 90000000000 = "1m30s" ∧
    durationUnmarshalJSON (JSONValue.str "1m30s") = some 90000000000 ∧
    durationUnmarshalJSON (JSONValue.num 90000000000) = some 90000000000 ∧
    durationUnmarshalJSON (JSONValue.str "notaduration") = none := by
  refine ⟨rfl, ?_, by decide, by decide, rfl, by decide⟩
  show goParseDuration (goDurationString d) = some d
  exact goParseDuration_roundtrip d hlo hhi

/-- Witness for C9 at 90 seconds. -/
theorem durationCodec_roundtrip_witness :
    durationUnmarshalJSON (durationMarshalJSON 90000000000) = some 90000000000 :=
  (durationCodec_roundtrip 90000000000 (by norm_num) (by norm_num)).2.1

end Alerting
